import Mathlib

/-!
Verification development for `rgi_extractor.py` (repository `rnandodias/rgi_extractor`).

The Python source is shallowly embedded here:

* JSON values (as produced by `json.loads`) are the inductive type `JVal`;
  Python numbers (int and float alike) are modelled as exact rationals `ℚ`.
  Python dictionaries are association lists with unique keys in insertion
  order (`PyDict`); `dictSet` replaces in place (as CPython dict assignment
  does) and `dictSet`/`dictGet`/`dictRemove` mirror `d[k] = v`, `d.get(k)`
  and `d.pop(k)`.
* Python truthiness (`if v:`) is `pyTruthy`.
* The measurement scanner `extract_measures_meters` embeds the concrete
  regex `NUM_M_RGX` by an explicit backtracking matcher specialised to that
  pattern, with Python `re` semantics: leftmost scan, alternation order,
  greedy quantifiers with backtracking, the `(?<!\d)` lookbehind and the
  trailing word boundary.  Character classes are restricted to the
  characters that occur in the documents handled by this program (ASCII
  digits and whitespace; word characters are ASCII alphanumerics,
  underscore, the superscript two and the accented Latin letters of
  Portuguese).
-/

/- The Batteries rational-number operations are `@[irreducible]`; the
embedded functions below must evaluate by plain reduction (for `rfl` and
`decide` proofs on concrete documents), so restore default reducibility.
This changes nothing about the kernel or the axioms of any proof. -/
set_option allowUnsafeReducibility true in
attribute [semireducible] Rat.mul Rat.add Rat.inv Rat.sub Rat.ofScientific

/-- A JSON value, the result type of `json.loads`.  Numbers are modelled as
exact rationals (the Python code manipulates them only by arithmetic,
comparison and 2/4-decimal rounding on small decimal inputs, where the
rational model agrees with IEEE doubles on every input used in this file). -/
inductive JVal where
  | null : JVal
  | bool : Bool → JVal
  | num : ℚ → JVal
  | str : String → JVal
  | arr : List JVal → JVal
  | obj : List (String × JVal) → JVal

/-- A Python dict with `JVal` values: association list in insertion order,
keys unique by construction of the operations below. -/
abbrev PyDict : Type := List (String × JVal)

/-- `d.get(k)` on a Python dict. -/
def dictGet (d : PyDict) (k : String) : Option JVal :=
  match d with
  | [] => none
  | (k', v) :: t => if k' = k then some v else dictGet t k

/-- `d[k] = v` on a Python dict: replaces the value in place if the key is
present (keeping its position), otherwise appends the new key at the end. -/
def dictSet (d : PyDict) (k : String) (v : JVal) : PyDict :=
  match d with
  | [] => [(k, v)]
  | (k', v') :: t => if k' = k then (k', v) :: t else (k', v') :: dictSet t k v

/-- `k in d` on a Python dict. -/
def dictHas (d : PyDict) (k : String) : Bool :=
  (dictGet d k).isSome

/-- `d.pop(k, None)` on a Python dict (the resulting dict). -/
def dictRemove (d : PyDict) (k : String) : PyDict :=
  match d with
  | [] => []
  | (k', v') :: t => if k' = k then t else (k', v') :: dictRemove t k

/-- `{**a, **b}`: every entry of `b` written into `a`, later entries
winning. -/
def dictUpdate (a b : PyDict) : PyDict :=
  b.foldl (fun d kv => dictSet d kv.1 kv.2) a

/-- Python truthiness of a JSON value (`bool(v)`). -/
def pyTruthy : JVal → Bool
  | .null => false
  | .bool b => b
  | .num q => if q = 0 then false else true
  | .str s => if s = "" then false else true
  | .arr [] => false
  | .arr (_ :: _) => true
  | .obj [] => false
  | .obj (_ :: _) => true

/-- Truthiness of `d.get(k)` (absent key reads as `None`, falsy). -/
def pyTruthyO : Option JVal → Bool
  | none => false
  | some v => pyTruthy v

/- ===================== Measurement Inference =====================
Embedding of `NUM_M_RGX`, `_to_float_pt`, `extract_measures_meters` and
`infer_area_from_texts` (src/rgi_extractor.py lines 14-62). -/

/-- Word characters for the word boundary `\b` of `NUM_M_RGX`, restricted
to the alphabet occurring in these documents: ASCII alphanumerics,
underscore, the superscript two (alphanumeric for Python `re`) and accented
Portuguese letters. -/
def isWordCh (c : Char) : Bool :=
  c.isAlphanum || c = '_' || c = '²' ||
    ['á', 'à', 'â', 'ã', 'é', 'ê', 'í', 'ó', 'ô', 'õ', 'ú', 'ü', 'ç',
     'Á', 'À', 'Â', 'Ã', 'É', 'Ê', 'Í', 'Ó', 'Ô', 'Õ', 'Ú', 'Ü', 'Ç'].contains c

/-- Whitespace for `\s` of `NUM_M_RGX` (the ASCII whitespace class). -/
def isSpaceCh (c : Char) : Bool :=
  c = ' ' || c = '\t' || c = '\n' || c = '\r' || c = '\x0b' || c = '\x0c'

/-- The candidate expansions of `(\.\d{3})*` at the head of the input, in
backtracking priority order (most repetitions first).  Each candidate is
(consumed characters, remaining input). -/
def dotTripleChains : List Char → List (List Char × List Char)
  | '.' :: a :: b :: c :: rest =>
    if a.isDigit && b.isDigit && c.isDigit then
      ((dotTripleChains rest).map fun p => ('.' :: a :: b :: c :: p.1, p.2)) ++
        [([], '.' :: a :: b :: c :: rest)]
    else [([], '.' :: a :: b :: c :: rest)]
  | l => [([], l)]

/-- All splits `(ds.take k, ds.drop k)` for `k` from `ds.length` down to 1:
the candidate matches of a greedy `\d+` over a maximal digit run `ds`. -/
def takesDesc (ds : List Char) : List (List Char × List Char) :=
  (List.range ds.length).map fun i => (ds.take (ds.length - i), ds.drop (ds.length - i))

/-- The candidate expansions of `(,\d+)?` at the head of the input, in
backtracking priority order (present with the longest digit run first,
then absent). -/
def commaOptions (l : List Char) : List (List Char × List Char) :=
  match l with
  | ',' :: t =>
    let ds := t.takeWhile Char.isDigit
    let rest := t.drop ds.length
    ((takesDesc ds).map fun p => (',' :: p.1, p.2 ++ rest)) ++ [([], ',' :: t)]
  | _ => [([], l)]

/-- Candidate matches of the first alternative
`\d{1,3}(?:\.\d{3})*(?:,\d+)?` of the capture group of `NUM_M_RGX`, in
backtracking priority order. -/
def alt1Cands (cs : List Char) : List (List Char × List Char) :=
  let ds := cs.takeWhile Char.isDigit
  let d1max := min 3 ds.length
  (List.range d1max).flatMap fun i =>
    let d1 := d1max - i
    let head := cs.take d1
    let rest0 := cs.drop d1
    (dotTripleChains rest0).flatMap fun ch =>
      (commaOptions ch.2).map fun co => (head ++ ch.1 ++ co.1, co.2)

/-- Candidate matches of the second alternative `\d+(?:\.\d+)?` of the
capture group of `NUM_M_RGX`, in backtracking priority order. -/
def alt2Cands (cs : List Char) : List (List Char × List Char) :=
  let ds := cs.takeWhile Char.isDigit
  let rest0 := cs.drop ds.length
  (takesDesc ds).flatMap fun p =>
    let rest1 := p.2 ++ rest0
    let fracs :=
      match rest1 with
      | '.' :: t =>
        let fs := t.takeWhile Char.isDigit
        let rest2 := t.drop fs.length
        (takesDesc fs).map fun fp => ('.' :: fp.1, fp.2 ++ rest2)
      | _ => []
    (fracs ++ [([], rest1)]).map fun fo => (p.1 ++ fo.1, fo.2)

/-- `\b` of `NUM_M_RGX`: the character just matched is a word character
(`m`, `²` or `2`), so the boundary holds iff the next character is absent
or not a word character. -/
def boundaryOk : List Char → Bool
  | [] => true
  | c :: _ => !(isWordCh c)

/-- The tail `\s*m(?:²|2)?\b` of `NUM_M_RGX` with `re.IGNORECASE`: returns
the remaining input and the last consumed character on success.  The unit
alternation tries `²` before `2` before nothing, exactly as the regex
engine does. -/
def matchSuffix (cs : List Char) : Option (List Char × Char) :=
  let rest := cs.dropWhile isSpaceCh
  match rest with
  | c :: t =>
    if c = 'm' || c = 'M' then
      match t with
      | '²' :: u => if boundaryOk u then some (u, '²') else none
      | '2' :: u => if boundaryOk u then some (u, '2') else none
      | _ => if boundaryOk t then some (t, c) else none
    else none
  | [] => none

/-- The first group candidate whose continuation matches the suffix of the
pattern; returns (captured group, remaining input, last consumed char). -/
def firstSuffix : List (List Char × List Char) → Option (List Char × List Char × Char)
  | [] => none
  | (g, rest) :: more =>
    match matchSuffix rest with
    | some (r, last) => some (g, r, last)
    | none => firstSuffix more

/-- A match of `NUM_M_RGX` anchored at the current position (the lookbehind
is checked by the caller).  Both capture-group alternatives require a
leading digit. -/
def matchAt (cs : List Char) : Option (List Char × List Char × Char) :=
  match cs with
  | c :: _ => if c.isDigit then firstSuffix (alt1Cands cs ++ alt2Cands cs) else none
  | [] => none

/-- `NUM_M_RGX.finditer`: scan left to right, skipping positions whose
preceding character is a digit (the `(?<!\d)` lookbehind), emitting each
match's capture group and resuming after the match.  Every match consumes
at least two characters, so fuel `length + 1` never runs out. -/
def scanForMeasures : ℕ → List Char → Bool → List (List Char)
  | 0, _, _ => []
  | _ + 1, [], _ => []
  | fuel + 1, c :: t, prevDigit =>
    if prevDigit then scanForMeasures fuel t c.isDigit
    else
      match matchAt (c :: t) with
      | some (g, rest, last) => g :: scanForMeasures fuel rest last.isDigit
      | none => scanForMeasures fuel t c.isDigit

/-- The numeric value of an ASCII digit string. -/
def digitsToNat (l : List Char) : ℕ :=
  l.foldl (fun a c => a * 10 + (c.toNat - '0'.toNat)) 0

/-- `10 ^ n`, defined by structural recursion so that it computes by
kernel reduction alone. -/
def tenPow : ℕ → ℕ
  | 0 => 1
  | n + 1 => 10 * tenPow n

/-- `float(s)` on the decimal strings produced by `_to_float_pt`
(digits with at most one dot). -/
def parseDecQ (l : List Char) : Option ℚ :=
  let ip := l.takeWhile Char.isDigit
  let rest := l.drop ip.length
  match rest with
  | [] => if ip = [] then none else some (digitsToNat ip : ℚ)
  | '.' :: fp =>
    if fp.all Char.isDigit && (ip ≠ [] || fp ≠ []) then
      some ((digitsToNat ip : ℚ) + (digitsToNat fp : ℚ) / (tenPow fp.length : ℕ))
    else none
  | _ => none

/-- `_to_float_pt` (lines 21-26): strip every dot as a thousands separator,
turn the comma into the decimal point, then parse; `None` on failure. -/
def to_float_pt (g : List Char) : Option ℚ :=
  parseDecQ ((g.filter fun c => c ≠ '.').map fun c => if c = ',' then '.' else c)

/-- `extract_measures_meters` (lines 28-37). -/
def extract_measures_meters (text : String) : List ℚ :=
  if text = "" then []
  else
    let cs := text.toList
    (scanForMeasures (cs.length + 1) cs false).filterMap to_float_pt

/-- Round-half-to-even on a rational, the tie-breaking rule of Python's
built-in `round`, computed on the numerator and denominator: `f` is the
floor, and the fractional part `(n - f*d)/d` is compared against `1/2` by
comparing its doubled numerator with `d`. -/
def rhe (q : ℚ) : ℤ :=
  let n := q.num
  let d : ℤ := Int.ofNat q.den
  let f := Int.fdiv n d
  let r2 := 2 * (n - f * d)
  if r2 < d then f
  else if d < r2 then f + 1
  else if f % 2 = 0 then f else f + 1

/-- `round(q, n)` of Python, on the exact rational model. -/
def pyRound (q : ℚ) (n : ℕ) : ℚ :=
  (rhe (q * (tenPow n : ℕ)) : ℚ) / (tenPow n : ℕ)

/-- The distinct values of a list in first-occurrence order
(`Counter(measures).keys()`). -/
def firstOccs : List ℚ → List ℚ
  | [] => []
  | x :: t => x :: (firstOccs t).filter fun y => y ≠ x

/-- The sort key of `sorted(freq.keys(), key=lambda x: (-freq[x], -x))`:
`a` precedes `b` iff `a` has the larger count in `ms`, or equal counts and
the larger value. -/
def rankLe (ms : List ℚ) (a b : ℚ) : Bool :=
  ms.count b < ms.count a || (ms.count a = ms.count b && b ≤ a)

/-- Insertion into a list sorted by `rankLe ms`. -/
def insertRank (ms : List ℚ) (a : ℚ) : List ℚ → List ℚ
  | [] => [a]
  | b :: t => if rankLe ms a b then a :: b :: t else b :: insertRank ms a t

/-- Sort by `rankLe ms`; on lists of distinct values the key is a strict
total order, so this agrees with Python's stable `sorted`. -/
def sortRank (ms : List ℚ) : List ℚ → List ℚ
  | [] => []
  | a :: t => insertRank ms a (sortRank ms t)

/-- `infer_area_from_texts` (lines 39-62). -/
def infer_area_from_texts (texts : List String) : Option ℚ :=
  let measures0 := texts.flatMap extract_measures_meters
  let measures := (measures0.filter fun v => 0 < v).map fun v => pyRound v 4
  if measures.length < 2 then none
  else
    let distinct := sortRank measures (firstOccs measures)
    if 2 ≤ distinct.length then
      match distinct with
      | a :: b :: _ =>
        let area := a * b
        if 0 < area ∧ area < 1000000 then some (pyRound area 2) else none
      | _ => none
    else none

/- ===================== Merge Engine =====================
Embedding of the accumulator handling of `extract_with_openai`
(src/rgi_extractor.py lines 418-555).  The per-batch model response is a
parsed JSON value `data : JVal`; the accumulator `merged` is a `PyDict`.
The accessor functions below embed the Python idioms `x.get(k) or default`
and `x.get(k, default)` on values that the source only ever reads at
object/array/string type (on a well-typed response the coercing default
branch for a truthy value of the wrong shape is never taken; Python would
raise there). -/

/-- `data.get(k)` where `data` is a parsed JSON value (an object on every
input the source handles). -/
def jGet (d : JVal) (k : String) : Option JVal :=
  match d with
  | .obj l => dictGet l k
  | _ => none

/-- `data.get(k) or {}` read at object type. -/
def jGetObjOr (d : JVal) (k : String) : PyDict :=
  match jGet d k with
  | some (.obj l) => l
  | _ => []

/-- `data.get(k) or []` read at array type. -/
def jGetArrOr (d : JVal) (k : String) : List JVal :=
  match jGet d k with
  | some (.arr l) => l
  | _ => []

/-- `d.get(k, {})` on a `PyDict`, read at object type. -/
def objGetObjD (d : PyDict) (k : String) : PyDict :=
  match dictGet d k with
  | some (.obj l) => l
  | _ => []

/-- `d.get(k) or {}` on a `PyDict`, read at object type. -/
def objGetObjOr (d : PyDict) (k : String) : PyDict :=
  match dictGet d k with
  | some (.obj l) => l
  | _ => []

/-- `d.get(k) or []` on a `PyDict`, read at array type. -/
def objGetArrOr (d : PyDict) (k : String) : List JVal :=
  match dictGet d k with
  | some (.arr l) => l
  | _ => []

/-- `d.get(k) or ""` on a `PyDict`, read at string type. -/
def objGetStrOr (d : PyDict) (k : String) : String :=
  match dictGet d k with
  | some (.str s) => s
  | _ => ""

/-- `v not in (None, "", [], {})`: the emptiness test of the metadata merge
(line 482).  Numbers (including 0) and booleans are not in that tuple. -/
def nonEmptyMeta : JVal → Bool
  | .null => false
  | .str "" => false
  | .arr [] => false
  | .obj [] => false
  | _ => true

/-- Lines 479-483: `merged["document_metadata"] =
{**merged.get("document_metadata", {}), **{k: v for k, v in md.items() if v
not in (None, "", [], {})}}` with `md = data.get("document_metadata") or
{}`. -/
def mergeMetadata (merged : PyDict) (data : JVal) : PyDict :=
  let md := jGetObjOr data "document_metadata"
  let cur := objGetObjD merged "document_metadata"
  dictSet merged "document_metadata"
    (.obj (dictUpdate cur (md.filter fun kv => nonEmptyMeta kv.2)))

/-- The four append-only array keys of the accumulator (line 488). -/
def arrayKeys : List String :=
  ["proprietarios", "registros", "valores_mencionados", "referencias"]

/-- The loop body of the append-only merge (line 487): `merged[key] =
(merged.get(key) or []) + (data.get(key) or [])`. -/
def arrStep (data : JVal) (m : PyDict) (key : String) : PyDict :=
  dictSet m key (.arr (objGetArrOr m key ++ jGetArrOr data key))

/-- Lines 486-489: the append-only merge applied to each array key. -/
def mergeArrays (merged : PyDict) (data : JVal) : PyDict :=
  arrayKeys.foldl (arrStep data) merged

/-- One first-non-empty-wins scalar of the fees/stamps merge (lines
496-499): `if sc_src.get(k) and not sc_dst.get(k): sc_dst[k] = sc_src[k]`
for `k` in itbi, custas. -/
def scSet (k : String) (src dst : PyDict) : PyDict :=
  match dictGet src k with
  | some v => if pyTruthy v && !pyTruthyO (dictGet dst k) then dictSet dst k v else dst
  | none => dst

/-- Line 492: `sc_dst = merged.get("selos_e_custas") or {"guias": [],
"selos": []}`. -/
def selosDst0 (merged : PyDict) : PyDict :=
  match dictGet merged "selos_e_custas" with
  | some (.obj l) =>
    match l with
    | [] => [("guias", JVal.arr []), ("selos", JVal.arr [])]
    | _ => l
  | _ => [("guias", JVal.arr []), ("selos", JVal.arr [])]

/-- Lines 494-495: `sc_dst[k] = (sc_dst.get(k) or []) + (sc_src.get(k) or
[])`. -/
def selosConcat (src dst : PyDict) (k : String) : PyDict :=
  dictSet dst k (.arr (objGetArrOr dst k ++ objGetArrOr src k))

/-- Lines 492-500: the `selos_e_custas` merge (guias/selos concatenated,
itbi/custas first-non-empty). -/
def mergeSelos (merged : PyDict) (data : JVal) : PyDict :=
  let src := jGetObjOr data "selos_e_custas"
  dictSet merged "selos_e_custas"
    (.obj (scSet "custas" src (scSet "itbi" src
      (selosConcat src (selosConcat src (selosDst0 merged) "guias") "selos"))))

/-- The loop body of the property-object merge (lines 505-507):
`if v and (not im_dst.get(k)): im_dst[k] = v`. -/
def imStep (d : PyDict) (kv : String × JVal) : PyDict :=
  if pyTruthy kv.2 && !pyTruthyO (dictGet d kv.1) then dictSet d kv.1 kv.2 else d

/-- Lines 502-508: the property-object merge: `for k, v in im_src.items():
if v and (not im_dst.get(k)): im_dst[k] = v`. -/
def mergeImovel (merged : PyDict) (data : JVal) : PyDict :=
  let dst := objGetObjOr merged "imovel"
  let src := jGetObjOr data "imovel"
  dictSet merged "imovel" (.obj (src.foldl imStep dst))

/-- One iteration of the batch loop's merge section (lines 478-508), in
source order: metadata, then the four arrays, then fees/stamps, then the
property object. -/
def mergeBatch (merged : PyDict) (data : JVal) : PyDict :=
  mergeImovel (mergeSelos (mergeArrays (mergeMetadata merged data) data) data) data

/-- The initial accumulator (lines 418-427). -/
def initMerged : PyDict :=
  [("document_metadata", .obj [("paginas_processadas", .num 0)]),
   ("imovel", .obj []),
   ("proprietarios", .arr []),
   ("registros", .arr []),
   ("valores_mencionados", .arr []),
   ("selos_e_custas", .obj [("guias", .arr []), ("selos", .arr [])]),
   ("referencias", .arr []),
   ("confidence", .obj [])]

/-- `chunked(seq, size)` (lines 405-407): consecutive slices
`seq[i:i+size]` for `i = 0, size, 2*size, ...` (empty for `size = 0`,
where Python's `range` would raise). -/
def chunkedAux (n : ℕ) : ℕ → List α → List (List α)
  | 0, _ => []
  | _ + 1, [] => []
  | fuel + 1, a :: t => (a :: t).take n :: chunkedAux n fuel ((a :: t).drop n)

def chunked (l : List α) (n : ℕ) : List (List α) :=
  match n with
  | 0 => []
  | n + 1 => chunkedAux (n + 1) (l.length + 1) l

/-- `MAX_IMAGES_PER_CALL` (line 79). -/
def MAX_IMAGES_PER_CALL : ℕ := 2

/-- `enumerate(image_paths, start=1)`. -/
def enumerate1 : List α → ℕ → List (ℕ × α)
  | [], _ => []
  | x :: t, n => (n, x) :: enumerate1 t (n + 1)

/-- The batch loop (lines 431-510) over the batches of a run, abstracting
the model call into an oracle `ℕ → JVal` that yields the parsed JSON
response of the i-th batch.  Returns the merged accumulator and
`total_pages`. -/
def runLoopAux (oracle : ℕ → JVal) : List (List α) → ℕ → PyDict → ℕ → PyDict × ℕ
  | [], _, m, total => (m, total)
  | b :: bs, i, m, total => runLoopAux oracle bs (i + 1) (mergeBatch m (oracle i)) (total + b.length)

/-- Lines 514-521: move `pessoas_envovidas` to `pessoas_envolvidas` in one
act record, only when the correct key is absent (non-object records are
left as they are; the source assumes object records). -/
def fixReg (r : JVal) : JVal :=
  match r with
  | .obj l =>
    if dictHas l "pessoas_envovidas" && !dictHas l "pessoas_envolvidas" then
      let v :=
        match dictGet l "pessoas_envovidas" with
        | some w => if pyTruthy w then w else .arr []
        | none => .arr []
      .obj (dictRemove (dictSet l "pessoas_envolvidas" v) "pessoas_envovidas")
    else .obj l
  | x => x

/-- `f"{q:.2f}"` for the nonnegative two-decimal rationals produced by
`infer_area_from_texts`. -/
def fmt2 (q : ℚ) : String :=
  let n := (rhe (q * 100)).natAbs
  toString (n / 100) ++ "." ++ (if n % 100 < 10 then "0" else "") ++ toString (n % 100)

/-- `conf["derived"].setdefault("areas", {})[key] = msg` (lines 539/548),
rebuilt functionally: the nested dicts are updated in place in Python. -/
def confDerivedSet (conf : PyDict) (key : String) (msg : JVal) : PyDict :=
  let d := objGetObjD conf "derived"
  let a := objGetObjD d "areas"
  dictSet conf "derived" (.obj (dictSet d "areas" (.obj (dictSet a key msg))))

/-- Line 512: `merged["document_metadata"]["paginas_processadas"] =
total_pages`. -/
def finalizeMeta (m : PyDict) (total : ℕ) : PyDict :=
  dictSet m "document_metadata"
    (.obj (dictSet (objGetObjD m "document_metadata") "paginas_processadas" (.num total)))

/-- Lines 514-521: the legacy-key normalisation applied to every act
record. -/
def finalizeRegs (m : PyDict) : PyDict :=
  dictSet m "registros" (.arr ((objGetArrOr m "registros").map fixReg))

/-- One area-derivation step (lines 532-539 for the total area, 541-548
for the terrain area, which are the same block up to key names, input
texts and provenance message): on a falsy stored numeric value, run the
inference; a truthy inferred value is stored, a textual value is
synthesised if none exists, and the provenance note is recorded. -/
def deriveStep (key strKey msg : String) (texts : List String)
    (ac : PyDict × PyDict) : PyDict × PyDict :=
  let areas := ac.1
  let conf := ac.2
  if !pyTruthyO (dictGet areas key) then
    match infer_area_from_texts texts with
    | some t =>
      if t ≠ 0 then
        let areas := dictSet areas key (.num t)
        let areas :=
          if !pyTruthyO (dictGet areas strKey) then
            dictSet areas strKey (.str (fmt2 t ++ " m² (inferido)"))
          else areas
        (areas, confDerivedSet conf key (.str msg))
      else (areas, conf)
    | none => (areas, conf)
  else (areas, conf)

/-- Lines 523-524: `conf = merged.get("confidence") or {};
conf.setdefault("derived", {})`. -/
def confInit (m : PyDict) : PyDict :=
  let conf := objGetObjOr m "confidence"
  if dictHas conf "derived" then conf else dictSet conf "derived" (.obj [])

/-- Lines 512-555: the post-loop finalisation: write
`paginas_processadas`, normalise the legacy involved-persons key in every
act record, and run the two area-derivation steps. -/
def finalize (m : PyDict) (total : ℕ) : PyDict :=
  let m := finalizeMeta m total
  let m := finalizeRegs m
  let conf := confInit m
  let imv := objGetObjOr m "imovel"
  let areas := objGetObjOr imv "areas"
  let desc := objGetStrOr imv "descricao" ++ " "
  let confTx := objGetStrOr imv "confrontacoes" ++ " "
  let dimTx := objGetStrOr imv "dimensoes" ++ " "
  let s1 := deriveStep "area_total_m2" "area_total_str"
    "inferido a partir de medidas lineares no texto" [desc, confTx, dimTx] (areas, conf)
  let s2 := deriveStep "area_terreno_m2" "area_terreno_str"
    "inferido a partir de confrontações/dimensões" [confTx, dimTx] s1
  let m := dictSet m "imovel" (.obj (dictSet imv "areas" (.obj s2.1)))
  dictSet m "confidence" (.obj s2.2)

/-- `extract_with_openai` (lines 410-555) with the model call abstracted
into a per-batch response oracle: batch the enumerated pages two at a
time, merge every batch's response, then finalise. -/
def extract_with_openai (image_paths : List α) (oracle : ℕ → JVal) : PyDict :=
  let batches := chunked (enumerate1 image_paths 1) MAX_IMAGES_PER_CALL
  let r := runLoopAux oracle batches 0 initMerged 0
  finalize r.1 r.2

/- ===================== Response-body handling =====================
Embedding of line 476: `data = json.loads(resp.choices[0].message.content
or "{}")`.  `jsonLoads` is a JSON parser over `JVal` following the RFC 8259
grammar that Python's `json.loads` implements (whitespace, literals,
strings with escapes, strict numbers, arrays, objects); its error messages
are abbreviated and surrogate-pair escapes are out of scope. -/

/-- JSON whitespace (`json.loads` skips space, tab, newline, CR). -/
def jskipWs (l : List Char) : List Char :=
  l.dropWhile fun c => c = ' ' || c = '\t' || c = '\n' || c = '\r'

/-- The value of a hexadecimal digit. -/
def hexVal (c : Char) : Option ℕ :=
  match c.toNat with
  | n =>
    if 48 ≤ n ∧ n ≤ 57 then some (n - 48)
    else if 97 ≤ n ∧ n ≤ 102 then some (n - 87)
    else if 65 ≤ n ∧ n ≤ 70 then some (n - 55)
    else none

/-- The characters of a JSON string after the opening quote, with escape
sequences; control characters are rejected (strict mode). -/
def jstrAux : ℕ → List Char → Option (List Char × List Char)
  | 0, _ => none
  | _ + 1, [] => none
  | fuel + 1, c :: r =>
    if c = '"' then some ([], r)
    else if c = '\\' then
      match r with
      | [] => none
      | e :: r2 =>
        let simple : Option Char :=
          if e = '"' then some '"'
          else if e = '\\' then some '\\'
          else if e = '/' then some '/'
          else if e = 'b' then some '\x08'
          else if e = 'f' then some '\x0c'
          else if e = 'n' then some '\n'
          else if e = 'r' then some '\r'
          else if e = 't' then some '\t'
          else none
        match simple with
        | some d => (jstrAux fuel r2).map fun p => (d :: p.1, p.2)
        | none =>
          if e = 'u' then
            match r2 with
            | h1 :: h2 :: h3 :: h4 :: r3 =>
              match hexVal h1, hexVal h2, hexVal h3, hexVal h4 with
              | some a, some b, some c', some d =>
                (jstrAux fuel r3).map fun p =>
                  (Char.ofNat (((a * 16 + b) * 16 + c') * 16 + d) :: p.1, p.2)
              | _, _, _, _ => none
            | _ => none
          else none
    else if c.toNat < 32 then none
    else (jstrAux fuel r).map fun p => (c :: p.1, p.2)

/-- A JSON number per RFC 8259: optional minus, integer part without
leading zeros, optional fraction, optional exponent. -/
def jnumber (l : List Char) : Option (JVal × List Char) :=
  let sign : ℚ × List Char := match l with | '-' :: t => (-1, t) | _ => (1, l)
  let ds := sign.2.takeWhile Char.isDigit
  let r1 := sign.2.drop ds.length
  if ds = [] then none
  else if 1 < ds.length && ds.head? = some '0' then none
  else
    let ipart : ℚ := (digitsToNat ds : ℚ)
    let fr : Option (ℚ × List Char) :=
      match r1 with
      | '.' :: t =>
        let fs := t.takeWhile Char.isDigit
        if fs = [] then none
        else some ((digitsToNat fs : ℚ) / (tenPow fs.length : ℕ), t.drop fs.length)
      | _ => some (0, r1)
    match fr with
    | none => none
    | some (fpart, r2) =>
      let ex : Option (ℚ × List Char) :=
        match r2 with
        | 'e' :: t => some (1, t)
        | 'E' :: t => some (1, t)
        | _ => none
      match ex with
      | none => some (.num (sign.1 * (ipart + fpart)), r2)
      | some (_, t) =>
        let esign : ℚ × List Char := match t with
          | '+' :: u => (1, u)
          | '-' :: u => (-1, u)
          | _ => (1, t)
        let es := esign.2.takeWhile Char.isDigit
        if es = [] then none
        else
          let e : ℚ :=
            if esign.1 = 1 then (tenPow (digitsToNat es) : ℕ)
            else 1 / (tenPow (digitsToNat es) : ℕ)
          some (.num (sign.1 * (ipart + fpart) * e), esign.2.drop es.length)

mutual

/-- One JSON value at the head of the input (fuel-indexed). -/
def jparse : ℕ → List Char → Option (JVal × List Char)
  | 0, _ => none
  | fuel + 1, l =>
    match jskipWs l with
    | 'n' :: 'u' :: 'l' :: 'l' :: r => some (.null, r)
    | 't' :: 'r' :: 'u' :: 'e' :: r => some (.bool true, r)
    | 'f' :: 'a' :: 'l' :: 's' :: 'e' :: r => some (.bool false, r)
    | '"' :: r => (jstrAux (r.length + 1) r).map fun p => (.str (String.mk p.1), p.2)
    | '[' :: r =>
      (match jskipWs r with
       | ']' :: r2 => some (.arr [], r2)
       | r2 => (jarrItems fuel r2).map fun p => (.arr p.1, p.2))
    | '\x7b' :: r =>
      (match jskipWs r with
       | '\x7d' :: r2 => some (.obj [], r2)
       | r2 => (jobjItems fuel r2).map fun p => (.obj p.1, p.2))
    | l2 => jnumber l2

/-- The comma-separated items of a non-empty JSON array, up to `]`. -/
def jarrItems : ℕ → List Char → Option (List JVal × List Char)
  | 0, _ => none
  | fuel + 1, l =>
    match jparse fuel l with
    | none => none
    | some (v, r) =>
      match jskipWs r with
      | ',' :: r2 => (jarrItems fuel r2).map fun p => (v :: p.1, p.2)
      | ']' :: r2 => some ([v], r2)
      | _ => none

/-- The comma-separated members of a non-empty JSON object, up to the
closing brace. -/
def jobjItems : ℕ → List Char → Option (List (String × JVal) × List Char)
  | 0, _ => none
  | fuel + 1, l =>
    match jskipWs l with
    | '"' :: r =>
      match jstrAux (r.length + 1) r with
      | none => none
      | some (k, r2) =>
        match jskipWs r2 with
        | ':' :: r3 =>
          (match jparse fuel r3 with
           | none => none
           | some (v, r4) =>
             match jskipWs r4 with
             | ',' :: r5 => (jobjItems fuel r5).map fun p => ((String.mk k, v) :: p.1, p.2)
             | '\x7d' :: r5 => some ([(String.mk k, v)], r5)
             | _ => none)
        | _ => none
    | _ => none

end

/-- `json.loads(s)`. -/
def jsonLoads (s : String) : Except String JVal :=
  let cs := s.toList
  match jparse (cs.length + 1) cs with
  | some (v, rest) => if jskipWs rest = [] then .ok v else .error "Extra data"
  | none => .error "Expecting value"

/-- Line 476: `json.loads(resp.choices[0].message.content or "\x7b\x7d")`.
The response body is `Optional[str]`; the `or` replaces only a falsy body
(`None` or the empty string) with the empty-object literal, and every other
body goes to `json.loads` unchanged. -/
def parseBody (content : Option String) : Except String JVal :=
  jsonLoads
    (match content with
     | none => String.mk ['\x7b', '\x7d']
     | some s => if s = "" then String.mk ['\x7b', '\x7d'] else s)

/- ===================== Extraction Client retry policy =====================
Embedding of the per-batch request building and degraded retry
(src/rgi_extractor.py lines 78-83, 431-474).  The network call is an
oracle; the payload carries, per page, its 1-based page number and the
compression parameters used to re-encode it, so that which tier a call
used is visible in the payload itself. -/

/-- `PROMPT_INSTRUCTIONS` (lines 345-381). -/
def PROMPT_INSTRUCTIONS : String := "Você é um extrator jurídico rigoroso para registros de imóveis brasileiros.
# Extraia o conteúdo das imagens e preencha SOMENTE o JSON conforme o schema, sem chaves extras.

# Diretrizes:
# - NÃO invente. Se algo não estiver visível, omita o campo.
# - Datas: dd/mm/aaaa quando claro.
# - CPFs: somente dígitos.
# - 'imovel.descricao': transcrever fielmente o parágrafo “IMÓVEL - ...”.
# - 'proprietarios': liste todos os proprietários com dados que estiverem visíveis (RG/CPF/estado civil/regime/quotas etc.).
# - 'registros': para cada ato (R-*/AV-*):
#   • 'numero', 'tipo', 'data' (se houver) e 'detalhes' com uma descrição clara do que foi averbado/registrado.
#   • 'pessoas_envolvidas': relacione pessoas citadas no ato (ex.: herdeira, cônjuge, inventariante, ex-cônjuge).
#   • 'valores': todos os valores que pertençam a ESSE ato (avaliado, ITBI, imposto de transmissão, valor fiscal etc.).
# - 'valores_mencionados': todos os valores ao longo do documento, com moeda, valor_str, valor_num, contexto e página.
# - 'selos_e_custas': selos, guias e custas como texto simples.
# - 'referencias': pequenos trechos que justifiquem campos críticos (matrícula, unidade, proprietários e atos relevantes).
# - O documento pode variar: preencha apenas o que estiver legível.
# "

/-- `TARGET_WIDTH_PX` (line 80). -/
def TARGET_WIDTH_PX : ℕ := 1600

/-- `JPEG_QUALITY` (line 81). -/
def JPEG_QUALITY : ℕ := 80

/-- `LIGHT_WIDTH_PX` (line 82). -/
def LIGHT_WIDTH_PX : ℕ := 1200

/-- `LIGHT_JPEG_QUALITY` (line 83). -/
def LIGHT_JPEG_QUALITY : ℕ := 70

/-- The two payload tiers: the normal first-attempt tier and the degraded
retry tier. -/
inductive Tier where
  | normal : Tier
  | light : Tier
  deriving DecidableEq, Repr

/-- The (width, quality) pair handed to `compress_to_jpeg` for a tier
(lines 435 and 469). -/
def tierParams : Tier → ℕ × ℕ
  | .normal => (TARGET_WIDTH_PX, JPEG_QUALITY)
  | .light => (LIGHT_WIDTH_PX, LIGHT_JPEG_QUALITY)

/-- One element of the request payload: an instruction/label text, or a
page image re-encoded by `compress_to_jpeg path width quality`. -/
inductive ContentPart (α : Type) where
  | text : String → ContentPart α
  | image : α → ℕ → ℕ → ContentPart α
  deriving DecidableEq, Repr

/-- Lines 432-439 and 467-473: the request payload of a batch at a tier:
the fixed instructions, then per page a `Página n:` label and the page
image compressed with that tier's width and quality. -/
def buildContent (t : Tier) (batch : List (ℕ × α)) : List (ContentPart α) :=
  ContentPart.text PROMPT_INSTRUCTIONS ::
    batch.flatMap fun pn =>
      [ContentPart.text ("Página " ++ toString pn.1 ++ ":"),
       ContentPart.image pn.2 (tierParams t).1 (tierParams t).2]

/-- Lines 463-474: call the model on the normal-tier payload; on any
exception rebuild the payload at the light tier and call once more,
letting a second failure escape.  Also returns the payloads attempted, in
order. -/
def batchAttempt (call : List (ContentPart α) → Except ε β) (batch : List (ℕ × α)) :
    Except ε β × List (List (ContentPart α)) :=
  match call (buildContent .normal batch) with
  | .ok d => (.ok d, [buildContent .normal batch])
  | .error _ =>
    (call (buildContent .light batch), [buildContent .normal batch, buildContent .light batch])

/-- The batch loop of `extract_with_openai` with the fallible model call
kept explicit: batches are attempted in order, each with `batchAttempt`;
the first batch whose retry also fails aborts the loop with that error.
Returns the outcome together with the list of all payloads sent. -/
def runBatchesE (call : List (ContentPart α) → Except ε JVal) :
    List (List (ℕ × α)) → PyDict → ℕ → (Except ε (PyDict × ℕ)) × List (List (ContentPart α))
  | [], m, total => (.ok (m, total), [])
  | b :: bs, m, total =>
    match batchAttempt call b with
    | (.ok d, tr) =>
      let rec' := runBatchesE call bs (mergeBatch m d) (total + b.length)
      (rec'.1, tr ++ rec'.2)
    | (.error e, tr) => (.error e, tr)

/-- `extract_with_openai` with the fallible call explicit: on success the
finalised record, on a doubly-failed batch the propagated error; in both
cases the payloads sent. -/
def extract_with_openai_fallible (image_paths : List α)
    (call : List (ContentPart α) → Except ε JVal) :
    Except ε PyDict × List (List (ContentPart α)) :=
  let batches := chunked (enumerate1 image_paths 1) MAX_IMAGES_PER_CALL
  match runBatchesE call batches initMerged 0 with
  | (.ok (m, total), tr) => (.ok (finalize m total), tr)
  | (.error e, tr) => (.error e, tr)

/- ===================== Derived accessors and specification-side
definitions ===================== -/

/-- The `document_metadata` sub-dict of the accumulator
(`merged.get("document_metadata", {})`, always an object here). -/
def metadataOf (m : PyDict) : PyDict := objGetObjD m "document_metadata"

/-- The property sub-dict of the accumulator (`merged.get("imovel") or
{}`). -/
def imovelOf (m : PyDict) : PyDict := objGetObjOr m "imovel"

/-- The areas sub-dict of the accumulator (`imv.get("areas") or {}`,
line 527). -/
def areasOf (m : PyDict) : PyDict := objGetObjOr (imovelOf m) "areas"

/-- `(imv.get("descricao") or "") + " "` (line 528). -/
def descTxt (m : PyDict) : String := objGetStrOr (imovelOf m) "descricao" ++ " "

/-- `(imv.get("confrontacoes") or "") + " "` (line 529). -/
def confrTxt (m : PyDict) : String := objGetStrOr (imovelOf m) "confrontacoes" ++ " "

/-- `(imv.get("dimensoes") or "") + " "` (line 530). -/
def dimTxt (m : PyDict) : String := objGetStrOr (imovelOf m) "dimensoes" ++ " "

/-- The measurement-inference contract as §4.4 of the specification
phrases it, with the two corrections the source forces: values are kept
when positive before rounding (a positive value rounding to 0 stays), and
the accepted product is returned rounded to 2 decimal places.  Written
spec-side: collect, keep positives rounded to 4 places, rank the distinct
values by descending frequency then descending magnitude, and if at least
two distinct values remain multiply the top two, accepting the product
only strictly between 0 and 1,000,000. -/
def specInferArea (texts : List String) : Option ℚ :=
  let collected := texts.flatMap extract_measures_meters
  let kept := (collected.filter fun v => 0 < v).map fun v => pyRound v 4
  let ranked := sortRank kept (firstOccs kept)
  match ranked with
  | a :: b :: _ =>
    let p := a * b
    if 0 < p ∧ p < 1000000 then some (pyRound p 2) else none
  | _ => none

/-- Shape of every reachable accumulator: the eight top-level keys are
present with their container types, and the fees/stamps object carries its
two list fields. -/
def WFm (m : PyDict) : Prop :=
  (∃ l, dictGet m "document_metadata" = some (.obj l)) ∧
  (∃ l, dictGet m "imovel" = some (.obj l)) ∧
  (∀ k, k ∈ arrayKeys → ∃ l, dictGet m k = some (.arr l)) ∧
  (∃ sc, dictGet m "selos_e_custas" = some (.obj sc) ∧
    (∃ g, dictGet sc "guias" = some (.arr g)) ∧
    (∃ t, dictGet sc "selos" = some (.arr t))) ∧
  (∃ l, dictGet m "confidence" = some (.obj l))

/-- A response whose metadata city is non-empty in both batches, used to
exercise the metadata collision rule on a three-page (two-batch) run. -/
def c1oracle : ℕ → JVal
  | 0 => .obj [("document_metadata", .obj [("cidade", .str "Rio de Janeiro")])]
  | _ => .obj [("document_metadata", .obj [("cidade", .str "Niteroi")])]

/-- A response carrying one act record that holds both the correct and the
legacy involved-persons keys. -/
def c6oracle : ℕ → JVal
  | _ => .obj [("registros", .arr [
      .obj [("numero", .str "R-1"),
        ("pessoas_envolvidas", .arr [.obj [("nome", .str "A")]]),
        ("pessoas_envovidas", .arr [.obj [("nome", .str "B")]])]])]

/-- The act record the run with `c6oracle` returns. -/
def c6record : JVal :=
  .obj [("numero", .str "R-1"),
    ("pessoas_envolvidas", .arr [.obj [("nome", .str "A")]]),
    ("pessoas_envovidas", .arr [.obj [("nome", .str "B")]])]

/-- A response whose property description carries two linear measures and
whose stored numeric total area is 0. -/
def c9oracle : ℕ → JVal
  | _ => .obj [("imovel", .obj [
      ("descricao", .str "10,00 m por 20,50 m"),
      ("areas", .obj [("area_total_m2", .num 0)])])]

/-- A batch response with one truthy and one falsy property entry. -/
def c2data : JVal :=
  .obj [("imovel", .obj [("descricao", .str "primeira"), ("quartos", .num 0)])]

/-- A model call that fails on the normal-tier payload of page 7, fails
with a different error on its light-tier payload, and succeeds on every
other payload. -/
def c5call : List (ContentPart ℕ) → Except String JVal := fun content =>
  if (ContentPart.image 7 TARGET_WIDTH_PX JPEG_QUALITY) ∈ content then
    .error "timeout-normal"
  else if (ContentPart.image 7 LIGHT_WIDTH_PX LIGHT_JPEG_QUALITY) ∈ content then
    .error "timeout-light"
  else .ok (.obj [])

/- ===================== Dictionary lemmas ===================== -/

/-- The keys of a dict are pairwise distinct (always true of a Python
dict; model responses come from `json.loads`, whose objects have unique
keys). -/
abbrev keysNodup (d : PyDict) : Prop := (d.map Prod.fst).Nodup

theorem dictGet_dictSet_self (d : PyDict) (k : String) (v : JVal) :
    dictGet (dictSet d k v) k = some v := by
  induction d with
  | nil => simp [dictSet, dictGet]
  | cons kv t ih =>
    obtain ⟨a, b⟩ := kv
    by_cases h : a = k
    · simp [dictSet, dictGet, h]
    · simp [dictSet, dictGet, h, ih]

theorem dictGet_dictSet_ne (d : PyDict) {k' k : String} (v : JVal) (h : k' ≠ k) :
    dictGet (dictSet d k' v) k = dictGet d k := by
  induction d with
  | nil => simp [dictSet, dictGet, h]
  | cons kv t ih =>
    obtain ⟨a, b⟩ := kv
    by_cases h2 : a = k'
    · have h3 : ¬ a = k := fun e => h (h2.symm.trans e)
      simp [dictSet, dictGet, h2, h3, h]
    · by_cases h3 : a = k <;> simp [dictSet, dictGet, h2, h3, ih, h, Ne.symm h]

theorem dictSet_eq_of_get {d : PyDict} {k : String} {v : JVal}
    (h : dictGet d k = some v) : dictSet d k v = d := by
  induction d with
  | nil => simp [dictGet] at h
  | cons kv t ih =>
    obtain ⟨a, b⟩ := kv
    by_cases h2 : a = k
    · simp [dictGet, h2] at h
      simp [dictSet, h2, h]
    · simp [dictGet, h2] at h
      simp [dictSet, h2, ih h]

theorem dictGet_dictRemove_ne (d : PyDict) {k' k : String} (h : k' ≠ k) :
    dictGet (dictRemove d k') k = dictGet d k := by
  induction d with
  | nil => simp [dictRemove, dictGet]
  | cons kv t ih =>
    obtain ⟨a, b⟩ := kv
    by_cases h2 : a = k'
    · have h3 : ¬ a = k := fun e => h (h2.symm.trans e)
      simp [dictRemove, dictGet, h2, h3, h]
    · by_cases h3 : a = k <;> simp [dictRemove, dictGet, h2, h3, ih, h, Ne.symm h]

theorem mem_keys_of_get {d : PyDict} {k : String} {v : JVal}
    (h : dictGet d k = some v) : k ∈ d.map Prod.fst := by
  induction d with
  | nil => simp [dictGet] at h
  | cons kv t ih =>
    obtain ⟨a, b⟩ := kv
    by_cases h2 : a = k
    · simp [h2]
    · simp [dictGet, h2] at h
      simp [ih h]

theorem get_none_of_not_mem {d : PyDict} {k : String}
    (h : k ∉ d.map Prod.fst) : dictGet d k = none := by
  induction d with
  | nil => simp [dictGet]
  | cons kv t ih =>
    obtain ⟨a, b⟩ := kv
    have h2 : ¬ a = k := fun e => h (by simp [e])
    have h3 : k ∉ t.map Prod.fst := fun hm => h (by simp [hm])
    simp [dictGet, h2, ih h3]

theorem dictGet_dictRemove_self {d : PyDict} (hd : keysNodup d) (k : String) :
    dictGet (dictRemove d k) k = none := by
  induction d with
  | nil => simp [dictRemove, dictGet]
  | cons kv t ih =>
    obtain ⟨a, b⟩ := kv
    have hd' : (a :: t.map Prod.fst).Nodup := hd
    have hd2 := List.nodup_cons.1 hd'
    by_cases h2 : a = k
    · simp [dictRemove, h2]
      exact get_none_of_not_mem (h2 ▸ hd2.1)
    · simp [dictRemove, dictGet, h2]
      exact ih hd2.2

/-- The key list of `dictSet`: unchanged if the key was present, otherwise
the key is appended. -/
theorem keys_dictSet (d : PyDict) (k : String) (v : JVal) :
    (dictSet d k v).map Prod.fst =
      if k ∈ d.map Prod.fst then d.map Prod.fst else d.map Prod.fst ++ [k] := by
  induction d with
  | nil => simp [dictSet]
  | cons kv t ih =>
    obtain ⟨a, b⟩ := kv
    by_cases h2 : a = k
    · simp [dictSet, h2]
    · have h3 : ¬ k = a := fun e => h2 e.symm
      by_cases h4 : k ∈ t.map Prod.fst <;> simp [dictSet, h2, h3, h4, ih]

theorem keysNodup_dictSet {d : PyDict} (hd : keysNodup d) (k : String) (v : JVal) :
    keysNodup (dictSet d k v) := by
  unfold keysNodup at hd ⊢
  rw [keys_dictSet]
  by_cases h : k ∈ d.map Prod.fst
  · simpa [h] using hd
  · simp [h, List.nodup_append, hd]

theorem dictGet_dictUpdate_of_none {b : PyDict} {k : String}
    (h : dictGet b k = none) (a : PyDict) :
    dictGet (dictUpdate a b) k = dictGet a k := by
  induction b generalizing a with
  | nil => rfl
  | cons kv t ih =>
    obtain ⟨k1, v1⟩ := kv
    by_cases h2 : k1 = k
    · simp [dictGet, h2] at h
    · simp [dictGet, h2] at h
      have : dictUpdate a ((k1, v1) :: t) = dictUpdate (dictSet a k1 v1) t := rfl
      rw [this, ih h, dictGet_dictSet_ne _ _ h2]

theorem dictGet_dictUpdate_of_some {b : PyDict} {k : String} {v : JVal}
    (hb : keysNodup b) (h : dictGet b k = some v) (a : PyDict) :
    dictGet (dictUpdate a b) k = some v := by
  induction b generalizing a with
  | nil => simp [dictGet] at h
  | cons kv t ih =>
    obtain ⟨k1, v1⟩ := kv
    have hb' : (k1 :: t.map Prod.fst).Nodup := hb
    have hb2 := List.nodup_cons.1 hb'
    have hstep : dictUpdate a ((k1, v1) :: t) = dictUpdate (dictSet a k1 v1) t := rfl
    by_cases h2 : k1 = k
    · simp [dictGet, h2] at h
      rw [hstep, dictGet_dictUpdate_of_none (get_none_of_not_mem (h2 ▸ hb2.1)),
        h2, h, dictGet_dictSet_self]
    · simp [dictGet, h2] at h
      rw [hstep, ih hb2.2 h]

theorem keysNodup_filter {d : PyDict} (hd : keysNodup d) (p : String × JVal → Bool) :
    keysNodup (d.filter p) :=
  List.Nodup.sublist (List.Sublist.map Prod.fst (List.filter_sublist d)) hd

theorem dictGet_filter_of_some {d : PyDict} {k : String} {v : JVal} {p : String × JVal → Bool}
    (hd : keysNodup d) (h : dictGet d k = some v) :
    dictGet (d.filter p) k = if p (k, v) then some v else none := by
  induction d with
  | nil => simp [dictGet] at h
  | cons kv t ih =>
    obtain ⟨a, b⟩ := kv
    have hd' : (a :: t.map Prod.fst).Nodup := hd
    have hd2 := List.nodup_cons.1 hd'
    by_cases h2 : a = k
    · subst h2
      have hbv : b = v := by simpa [dictGet] using h
      subst hbv
      by_cases h3 : p (a, b)
      · simp [List.filter_cons, h3, dictGet]
      · simp [List.filter_cons, h3]
        exact get_none_of_not_mem
          fun hm => hd2.1 ((List.Sublist.map Prod.fst (List.filter_sublist t)).subset hm)
    · have h4 : dictGet t k = some v := by simpa [dictGet, h2] using h
      by_cases h3 : p (a, b) <;> simp [List.filter_cons, h3, dictGet, h2, ih hd2.2 h4]

theorem dictGet_filter_of_none {d : PyDict} {k : String} {p : String × JVal → Bool}
    (h : dictGet d k = none) :
    dictGet (d.filter p) k = none := by
  induction d with
  | nil => simp [dictGet]
  | cons kv t ih =>
    obtain ⟨a, b⟩ := kv
    by_cases h2 : a = k
    · simp [dictGet, h2] at h
    · have h4 : dictGet t k = none := by simpa [dictGet, h2] using h
      by_cases h3 : p (a, b) <;> simp [List.filter_cons, h3, dictGet, h2, ih h4]

/- ===================== Property-object fold lemmas =====================
The body of the `for k, v in im_src.items()` loop of `mergeImovel`. -/

theorem imStep_get_ne {d : PyDict} {kv : String × JVal} {k : String} (h : kv.1 ≠ k) :
    dictGet (imStep d kv) k = dictGet d k := by
  unfold imStep
  split
  · exact dictGet_dictSet_ne _ _ h
  · rfl

/-- A key whose accumulator value is already truthy is never rewritten by
the property-object loop. -/
theorem imFold_get_truthy {src : List (String × JVal)} {d : PyDict} {k : String}
    (h : pyTruthyO (dictGet d k) = true) :
    dictGet (src.foldl imStep d) k = dictGet d k := by
  induction src generalizing d with
  | nil => rfl
  | cons kv t ih =>
    obtain ⟨a, b⟩ := kv
    by_cases h2 : a = k
    · subst h2
      have hstep : imStep d (a, b) = d := by
        unfold imStep
        simp [h]
      rw [List.foldl_cons, hstep, ih h]
    · rw [List.foldl_cons, ih]
      · exact imStep_get_ne h2
      · rwa [imStep_get_ne h2]

/-- A key absent from the batch is never touched by the property-object
loop. -/
theorem imFold_get_not_mem {src : List (String × JVal)} {d : PyDict} {k : String}
    (h : k ∉ src.map Prod.fst) :
    dictGet (src.foldl imStep d) k = dictGet d k := by
  induction src generalizing d with
  | nil => rfl
  | cons kv t ih =>
    obtain ⟨a, b⟩ := kv
    have h2 : ¬ a = k := fun e => h (by simp [e])
    have h3 : k ∉ t.map Prod.fst := fun hm => h (by simp [hm])
    rw [List.foldl_cons, ih h3, imStep_get_ne h2]

/-- A truthy batch value for a key whose accumulator value is falsy or
absent is copied by the property-object loop. -/
theorem imFold_get_copy {src : List (String × JVal)} {d : PyDict} {k : String} {v : JVal}
    (hsrc : keysNodup src) (hget : dictGet src k = some v)
    (hv : pyTruthy v = true) (hold : pyTruthyO (dictGet d k) = false) :
    dictGet (src.foldl imStep d) k = some v := by
  induction src generalizing d with
  | nil => simp [dictGet] at hget
  | cons kv t ih =>
    obtain ⟨a, b⟩ := kv
    have hs' : (a :: t.map Prod.fst).Nodup := hsrc
    have hs2 := List.nodup_cons.1 hs'
    by_cases h2 : a = k
    · subst h2
      have hbv : b = v := by simpa [dictGet] using hget
      subst hbv
      have hstep : imStep d (a, b) = dictSet d a b := by
        unfold imStep
        simp [hv, hold]
      rw [List.foldl_cons, hstep, imFold_get_not_mem hs2.1, dictGet_dictSet_self]
    · have h4 : dictGet t k = some v := by simpa [dictGet, h2] using hget
      rw [List.foldl_cons, ih hs2.2 h4]
      rwa [imStep_get_ne h2]

/-- A falsy batch value is never copied by the property-object loop. -/
theorem imFold_get_falsy {src : List (String × JVal)} {d : PyDict} {k : String} {v : JVal}
    (hsrc : keysNodup src) (hget : dictGet src k = some v)
    (hv : pyTruthy v = false) :
    dictGet (src.foldl imStep d) k = dictGet d k := by
  induction src generalizing d with
  | nil => simp [dictGet] at hget
  | cons kv t ih =>
    obtain ⟨a, b⟩ := kv
    have hs' : (a :: t.map Prod.fst).Nodup := hsrc
    have hs2 := List.nodup_cons.1 hs'
    by_cases h2 : a = k
    · subst h2
      have hbv : b = v := by simpa [dictGet] using hget
      subst hbv
      have hstep : imStep d (a, b) = d := by
        unfold imStep
        simp [hv]
      rw [List.foldl_cons, hstep, imFold_get_not_mem hs2.1]
    · have h4 : dictGet t k = some v := by simpa [dictGet, h2] using hget
      rw [List.foldl_cons, ih hs2.2 h4, imStep_get_ne h2]

/- ===================== Merge-step access lemmas ===================== -/

theorem arrFold_get_not_mem {d : JVal} {keys : List String} {m : PyDict} {k : String}
    (hk : k ∉ keys) :
    dictGet (keys.foldl (arrStep d) m) k = dictGet m k := by
  induction keys generalizing m with
  | nil => rfl
  | cons a t ih =>
    have h2 : a ≠ k := fun e => hk (by simp [e])
    have h3 : k ∉ t := fun hm => hk (by simp [hm])
    rw [List.foldl_cons, ih h3]
    unfold arrStep
    exact dictGet_dictSet_ne _ _ h2

theorem arrFold_get_mem {d : JVal} {keys : List String} {m : PyDict} {k : String}
    (hk : k ∈ keys) :
    ∃ l, dictGet (keys.foldl (arrStep d) m) k = some (.arr l) := by
  induction keys generalizing m with
  | nil => simp at hk
  | cons a t ih =>
    by_cases hm : k ∈ t
    · rw [List.foldl_cons]
      exact ih hm
    · have ha : a = k := by
        rcases List.mem_cons.1 hk with h | h
        · exact h.symm
        · exact absurd h hm
      rw [List.foldl_cons, arrFold_get_not_mem hm]
      unfold arrStep
      exact ⟨_, by rw [ha, dictGet_dictSet_self]⟩

theorem mergeMetadata_get_ne {m : PyDict} {d : JVal} {k : String}
    (h : k ≠ "document_metadata") :
    dictGet (mergeMetadata m d) k = dictGet m k := by
  unfold mergeMetadata
  exact dictGet_dictSet_ne _ _ (Ne.symm h)

theorem mergeArrays_get_ne {m : PyDict} {d : JVal} {k : String}
    (h : k ∉ arrayKeys) :
    dictGet (mergeArrays m d) k = dictGet m k := by
  unfold mergeArrays
  exact arrFold_get_not_mem h

theorem mergeSelos_get_ne {m : PyDict} {d : JVal} {k : String}
    (h : k ≠ "selos_e_custas") :
    dictGet (mergeSelos m d) k = dictGet m k := by
  unfold mergeSelos
  exact dictGet_dictSet_ne _ _ (Ne.symm h)

theorem mergeImovel_get_ne {m : PyDict} {d : JVal} {k : String}
    (h : k ≠ "imovel") :
    dictGet (mergeImovel m d) k = dictGet m k := by
  unfold mergeImovel
  exact dictGet_dictSet_ne _ _ (Ne.symm h)

/-- The metadata of the accumulator after one batch merge is the shallow
dict-union of the old metadata with the batch's non-empty entries. -/
theorem metadataOf_mergeBatch (m : PyDict) (d : JVal) :
    metadataOf (mergeBatch m d) =
      dictUpdate (metadataOf m)
        ((jGetObjOr d "document_metadata").filter fun kv => nonEmptyMeta kv.2) := by
  unfold metadataOf objGetObjD mergeBatch
  rw [mergeImovel_get_ne (by decide), mergeSelos_get_ne (by decide),
    mergeArrays_get_ne (by decide)]
  unfold mergeMetadata
  rw [dictGet_dictSet_self]
  rfl

/-- The property object of the accumulator after one batch merge is the
first-non-empty-wins fold of the batch's property entries over the old
property object. -/
theorem imovelOf_mergeBatch (m : PyDict) (d : JVal) :
    imovelOf (mergeBatch m d) = (jGetObjOr d "imovel").foldl imStep (imovelOf m) := by
  unfold mergeBatch mergeImovel
  have hin : dictGet (mergeSelos (mergeArrays (mergeMetadata m d) d) d) "imovel" =
      dictGet m "imovel" := by
    rw [mergeSelos_get_ne (by decide), mergeArrays_get_ne (by decide),
      mergeMetadata_get_ne (by decide)]
  show objGetObjOr (dictSet _ "imovel" _) "imovel" = _
  unfold objGetObjOr
  rw [dictGet_dictSet_self]
  unfold imovelOf objGetObjOr
  rw [hin]

theorem get_some_of_mem {d : PyDict} {k : String} (h : k ∈ d.map Prod.fst) :
    ∃ v, dictGet d k = some v := by
  induction d with
  | nil => simp at h
  | cons kv t ih =>
    obtain ⟨a, b⟩ := kv
    by_cases h2 : a = k
    · exact ⟨b, by simp [dictGet, h2]⟩
    · have h3 : k ∈ t.map Prod.fst := by
        rcases List.mem_cons.1 h with he | he
        · exact absurd he.symm h2
        · exact he
      obtain ⟨v, hv⟩ := ih h3
      exact ⟨v, by simp [dictGet, h2, hv]⟩

theorem get_not_mem_of_none {d : PyDict} {k : String} (h : dictGet d k = none) :
    k ∉ d.map Prod.fst := by
  intro hm
  obtain ⟨v, hv⟩ := get_some_of_mem hm
  rw [h] at hv
  exact Option.noConfusion hv

/- ===================== Claim C1 ===================== -/

/-- C1, corrected: monotonic fill holds for the property object (a key of
`imovel` whose accumulator value is already non-empty is never changed by
a later batch), but it does not hold for `document_metadata`: there a
batch entry that is non-empty (not `None`, `""`, `[]` or an empty object)
overwrites the accumulator's value even when the accumulator already held
a different non-empty value, an empty batch entry or an absent key leaving
the accumulator unchanged (last-non-empty-wins for metadata). -/
theorem C1_metadata_last_nonempty_wins :
    ∀ (m : PyDict) (d : JVal) (k : String),
      keysNodup (jGetObjOr d "document_metadata") →
      ((∀ v, dictGet (jGetObjOr d "document_metadata") k = some v → nonEmptyMeta v = true →
          dictGet (metadataOf (mergeBatch m d)) k = some v) ∧
       (∀ v, dictGet (jGetObjOr d "document_metadata") k = some v → nonEmptyMeta v = false →
          dictGet (metadataOf (mergeBatch m d)) k = dictGet (metadataOf m) k) ∧
       (dictGet (jGetObjOr d "document_metadata") k = none →
          dictGet (metadataOf (mergeBatch m d)) k = dictGet (metadataOf m) k) ∧
       (pyTruthyO (dictGet (imovelOf m) k) = true →
          dictGet (imovelOf (mergeBatch m d)) k = dictGet (imovelOf m) k)) := by
  intro m d k hnd
  refine ⟨?_, ?_, ?_, ?_⟩
  · intro v hv hne
    rw [metadataOf_mergeBatch]
    refine dictGet_dictUpdate_of_some (keysNodup_filter hnd _) ?_ _
    rw [dictGet_filter_of_some hnd hv]
    simp [hne]
  · intro v hv hne
    rw [metadataOf_mergeBatch]
    refine dictGet_dictUpdate_of_none ?_ _
    rw [dictGet_filter_of_some hnd hv]
    simp [hne]
  · intro hv
    rw [metadataOf_mergeBatch]
    exact dictGet_dictUpdate_of_none (dictGet_filter_of_none hv) _
  · intro ht
    rw [imovelOf_mergeBatch]
    exact imFold_get_truthy ht

theorem C1_metadata_last_nonempty_wins_witness :
    dictGet (metadataOf (mergeBatch initMerged (c1oracle 0))) "cidade" =
      some (.str "Rio de Janeiro") :=
  (C1_metadata_last_nonempty_wins initMerged (c1oracle 0) "cidade" (by decide)).1
    (.str "Rio de Janeiro") rfl rfl

/-- C1 fails as stated: after the first batch the accumulator's metadata
`cidade` holds the non-empty value `"Rio de Janeiro"`, yet the run's final
record holds the second batch's different non-empty value `"Niteroi"` for
the same key — the later batch did overwrite a non-empty metadata scalar. -/
theorem C1_counterexample :
    dictGet (metadataOf (mergeBatch initMerged (c1oracle 0))) "cidade" =
      some (.str "Rio de Janeiro") ∧
    dictGet (metadataOf (extract_with_openai ["p1", "p2", "p3"] c1oracle)) "cidade" =
      some (.str "Niteroi") ∧
    ("Rio de Janeiro" : String) ≠ "Niteroi" :=
  ⟨rfl, rfl, by decide⟩

/- ===================== Claim C2 ===================== -/

/-- C2: the property-object merge is atomic first-non-empty-wins: a batch
entry for a top-level `imovel` key is copied into the accumulator exactly
when it is non-empty (truthy) and the accumulator's value for that key is
empty or absent; values are copied whole, so a key whose accumulator value
is already non-empty — in particular a nested sub-object such as `areas` —
is left unchanged by every later batch, never merged leaf-by-leaf. -/
theorem C2_imovel_first_nonempty_wins :
    ∀ (m : PyDict) (d : JVal) (k : String),
      keysNodup (jGetObjOr d "imovel") →
      ((pyTruthyO (dictGet (imovelOf m) k) = true →
          dictGet (imovelOf (mergeBatch m d)) k = dictGet (imovelOf m) k) ∧
       (∀ v, dictGet (jGetObjOr d "imovel") k = some v → pyTruthy v = true →
          pyTruthyO (dictGet (imovelOf m) k) = false →
          dictGet (imovelOf (mergeBatch m d)) k = some v) ∧
       (∀ v, dictGet (jGetObjOr d "imovel") k = some v → pyTruthy v = false →
          dictGet (imovelOf (mergeBatch m d)) k = dictGet (imovelOf m) k) ∧
       (dictGet (jGetObjOr d "imovel") k = none →
          dictGet (imovelOf (mergeBatch m d)) k = dictGet (imovelOf m) k)) := by
  intro m d k hnd
  refine ⟨?_, ?_, ?_, ?_⟩
  · intro ht
    rw [imovelOf_mergeBatch]
    exact imFold_get_truthy ht
  · intro v hv htv hold
    rw [imovelOf_mergeBatch]
    exact imFold_get_copy hnd hv htv hold
  · intro v hv htv
    rw [imovelOf_mergeBatch]
    exact imFold_get_falsy hnd hv htv
  · intro hv
    rw [imovelOf_mergeBatch]
    exact imFold_get_not_mem (get_not_mem_of_none hv)

theorem C2_imovel_first_nonempty_wins_witness :
    dictGet (imovelOf (mergeBatch initMerged c2data)) "descricao" =
      some (.str "primeira") ∧
    dictGet (imovelOf (mergeBatch (mergeBatch initMerged c2data) c2data)) "descricao" =
      dictGet (imovelOf (mergeBatch initMerged c2data)) "descricao" :=
  ⟨(C2_imovel_first_nonempty_wins initMerged c2data "descricao" (by decide)).2.1
      (.str "primeira") rfl rfl rfl,
   (C2_imovel_first_nonempty_wins (mergeBatch initMerged c2data) c2data "descricao"
      (by decide)).1 rfl⟩

/- ===================== Finalisation lemmas ===================== -/

theorem deriveStep_get_other {ac : PyDict × PyDict} {k key strKey msg : String}
    {texts : List String} (h1 : key ≠ k) (h2 : strKey ≠ k) :
    dictGet (deriveStep key strKey msg texts ac).1 k = dictGet ac.1 k := by
  unfold deriveStep
  cases hinf : infer_area_from_texts texts with
  | none =>
    simp only [hinf]
    split <;> rfl
  | some t =>
    simp only [hinf]
    by_cases hc : (!pyTruthyO (dictGet ac.1 key)) = true
    · rw [if_pos hc]
      by_cases ht : t = 0
      · rw [if_neg (by simp [ht])]
      · rw [if_pos (by simpa using ht)]
        split <;> simp [dictGet_dictSet_ne _ _ h1, dictGet_dictSet_ne _ _ h2]
    · rw [if_neg hc]

theorem deriveStep_get_key {ac : PyDict × PyDict} {key strKey msg : String}
    {texts : List String} {t : ℚ} (hks : key ≠ strKey)
    (h0 : dictGet ac.1 key = some (.num 0))
    (hinf : infer_area_from_texts texts = some t) :
    dictGet (deriveStep key strKey msg texts ac).1 key = some (.num t) := by
  simp only [deriveStep]
  rw [h0]
  simp only [pyTruthyO, pyTruthy, if_pos rfl, Bool.not_false, if_true, hinf]
  by_cases ht : t = 0
  · subst ht
    simpa using h0
  · rw [if_pos ht]
    split <;> simp [dictGet_dictSet_ne _ _ (Ne.symm hks), dictGet_dictSet_self]

theorem prefinal_imovel (m : PyDict) (total : ℕ) :
    objGetObjOr (finalizeRegs (finalizeMeta m total)) "imovel" = imovelOf m := by
  unfold imovelOf objGetObjOr finalizeRegs finalizeMeta
  rw [dictGet_dictSet_ne _ _ (by decide), dictGet_dictSet_ne _ _ (by decide)]

theorem prefinal_conf (m : PyDict) (total : ℕ) :
    confInit (finalizeRegs (finalizeMeta m total)) = confInit m := by
  unfold confInit objGetObjOr finalizeRegs finalizeMeta
  rw [dictGet_dictSet_ne _ _ (by decide), dictGet_dictSet_ne _ _ (by decide)]

theorem areasOf_write (m2 imv a c : PyDict) :
    areasOf (dictSet (dictSet m2 "imovel" (.obj (dictSet imv "areas" (.obj a))))
      "confidence" (.obj c)) = a := by
  unfold areasOf imovelOf objGetObjOr
  rw [dictGet_dictSet_ne _ _ (by decide), dictGet_dictSet_self]
  rw [dictGet_dictSet_self]

/-- The areas object of the finalised record is exactly the output of the
two derivation steps run on the merged areas object. -/
theorem areasOf_finalize (m : PyDict) (total : ℕ) :
    areasOf (finalize m total) =
      (deriveStep "area_terreno_m2" "area_terreno_str"
        "inferido a partir de confrontações/dimensões" [confrTxt m, dimTxt m]
        (deriveStep "area_total_m2" "area_total_str"
          "inferido a partir de medidas lineares no texto"
          [descTxt m, confrTxt m, dimTxt m] (areasOf m, confInit m))).1 := by
  simp only [finalize]
  rw [prefinal_imovel, prefinal_conf, areasOf_write]
  rfl

/-- A stored numeric total area of 0 counts as absent: when the inference
over description, boundary and dimensions texts produces a value, the
finalised record holds that value (an inferred 0 is itself treated as
absent and the stored 0 is kept, which is the same value). -/
theorem finalize_area_total {m : PyDict} {total : ℕ} {t : ℚ}
    (h0 : dictGet (areasOf m) "area_total_m2" = some (.num 0))
    (hinf : infer_area_from_texts [descTxt m, confrTxt m, dimTxt m] = some t) :
    dictGet (areasOf (finalize m total)) "area_total_m2" = some (.num t) := by
  rw [areasOf_finalize, deriveStep_get_other (by decide) (by decide)]
  exact deriveStep_get_key (by decide) h0 hinf

/-- The terrain-area analogue of `finalize_area_total`, fed only by the
boundary and dimensions texts. -/
theorem finalize_area_terreno {m : PyDict} {total : ℕ} {t : ℚ}
    (h0 : dictGet (areasOf m) "area_terreno_m2" = some (.num 0))
    (hinf : infer_area_from_texts [confrTxt m, dimTxt m] = some t) :
    dictGet (areasOf (finalize m total)) "area_terreno_m2" = some (.num t) := by
  rw [areasOf_finalize]
  refine deriveStep_get_key (by decide) ?_ hinf
  rw [deriveStep_get_other (by decide) (by decide)]
  exact h0

/- ===================== Claim C9 ===================== -/

/-- C9: presence is decided by truthiness in both the property-object
merge and the derivation pass, so a stored numeric 0 counts as absent: a
batch's non-empty value replaces an accumulator value of 0 for an `imovel`
key, and a stored `area_total_m2` (or `area_terreno_m2`) equal to 0 ends
up holding the inferred value whenever Measurement Inference produces one
(an inferred value of exactly 0 is itself treated by truthiness as no
inference, leaving the stored 0 — the same value — in place). -/
theorem C9_truthiness_as_emptiness :
    (∀ (m : PyDict) (d : JVal) (k : String) (v : JVal),
       keysNodup (jGetObjOr d "imovel") →
       dictGet (imovelOf m) k = some (.num 0) →
       dictGet (jGetObjOr d "imovel") k = some v → pyTruthy v = true →
       dictGet (imovelOf (mergeBatch m d)) k = some v) ∧
    (∀ (m : PyDict) (total : ℕ) (t : ℚ),
       dictGet (areasOf m) "area_total_m2" = some (.num 0) →
       infer_area_from_texts [descTxt m, confrTxt m, dimTxt m] = some t →
       dictGet (areasOf (finalize m total)) "area_total_m2" = some (.num t)) ∧
    (∀ (m : PyDict) (total : ℕ) (t : ℚ),
       dictGet (areasOf m) "area_terreno_m2" = some (.num 0) →
       infer_area_from_texts [confrTxt m, dimTxt m] = some t →
       dictGet (areasOf (finalize m total)) "area_terreno_m2" = some (.num t)) := by
  refine ⟨?_, ?_, ?_⟩
  · intro m d k v hnd h0 hv htv
    rw [imovelOf_mergeBatch]
    refine imFold_get_copy hnd hv htv ?_
    rw [h0]
    decide
  · intro m total t h0 hinf
    exact finalize_area_total h0 hinf
  · intro m total t h0 hinf
    exact finalize_area_terreno h0 hinf

theorem C9_truthiness_as_emptiness_witness :
    dictGet (imovelOf (mergeBatch [("imovel", .obj [("unidade", .num 0)])]
        (.obj [("imovel", .obj [("unidade", .str "402")])]))) "unidade" =
      some (.str "402") ∧
    dictGet (areasOf (finalize (mergeBatch initMerged (c9oracle 0)) 1)) "area_total_m2" =
      some (.num 205) ∧
    dictGet (areasOf (finalize
        [("imovel", .obj [("confrontacoes", .str "frente 12,00 m lado 30,00 m"),
          ("areas", .obj [("area_terreno_m2", .num 0)])])] 1)) "area_terreno_m2" =
      some (.num 360) :=
  ⟨C9_truthiness_as_emptiness.1 _ _ "unidade" (.str "402") (by decide) rfl rfl rfl,
   C9_truthiness_as_emptiness.2.1 _ 1 205 rfl (by decide),
   C9_truthiness_as_emptiness.2.2 _ 1 360 rfl (by decide)⟩

/- ===================== Claim C4 ===================== -/

theorem runLoopAux_total (oracle : ℕ → JVal) :
    ∀ (bs : List (List α)) (i : ℕ) (m : PyDict) (tot : ℕ),
      (runLoopAux oracle bs i m tot).2 = tot + (bs.map List.length).sum := by
  intro bs
  induction bs with
  | nil => intro i m tot; simp [runLoopAux]
  | cons b t ih =>
    intro i m tot
    rw [runLoopAux, ih]
    simp
    omega

theorem chunkedAux_sum (n : ℕ) :
    ∀ (fuel : ℕ) (l : List α), l.length ≤ fuel →
      ((chunkedAux (n + 1) fuel l).map List.length).sum = l.length := by
  intro fuel
  induction fuel with
  | zero =>
    intro l h
    have : l = [] := List.eq_nil_of_length_eq_zero (Nat.le_zero.1 h)
    subst this
    simp [chunkedAux]
  | succ f ih =>
    intro l h
    cases l with
    | nil => simp [chunkedAux]
    | cons a t =>
      rw [chunkedAux]
      simp only [List.map_cons, List.sum_cons]
      rw [ih _ (by simp [List.length_drop] at h ⊢; omega)]
      simp [List.length_take, List.length_drop]
      omega

theorem chunked_sum (l : List α) (n : ℕ) :
    ((chunked l (n + 1)).map List.length).sum = l.length :=
  chunkedAux_sum n (l.length + 1) l (by omega)

theorem enumerate1_length : ∀ (l : List α) (n : ℕ), (enumerate1 l n).length = l.length := by
  intro l
  induction l with
  | nil => intro n; rfl
  | cons a t ih => intro n; simp [enumerate1, ih]

theorem metadataOf_finalize_pages (m : PyDict) (total : ℕ) :
    dictGet (metadataOf (finalize m total)) "paginas_processadas" = some (.num total) := by
  simp only [finalize]
  unfold metadataOf objGetObjD
  rw [dictGet_dictSet_ne _ _ (by decide), dictGet_dictSet_ne _ _ (by decide)]
  unfold finalizeRegs
  rw [dictGet_dictSet_ne _ _ (by decide)]
  unfold finalizeMeta
  rw [dictGet_dictSet_self]
  exact dictGet_dictSet_self _ _ _

/-- C4: for every run and every partition the batch loop induces, the
final record's `document_metadata.paginas_processadas` equals the number
of pages handed to the run — the sum of the batch sizes — whatever values
any batch response reported for that key (the oracle is universally
quantified, so model-reported values are always overwritten by the
post-loop write). -/
theorem C4_paginas_processadas {α : Type} :
    ∀ (image_paths : List α) (oracle : ℕ → JVal),
      dictGet (metadataOf (extract_with_openai image_paths oracle)) "paginas_processadas" =
        some (.num (image_paths.length : ℕ)) ∧
      ((chunked (enumerate1 image_paths 1) MAX_IMAGES_PER_CALL).map List.length).sum =
        image_paths.length := by
  intro pages oracle
  have hsum : ((chunked (enumerate1 pages 1) MAX_IMAGES_PER_CALL).map List.length).sum =
      pages.length := by
    rw [show MAX_IMAGES_PER_CALL = 1 + 1 from rfl, chunked_sum, enumerate1_length]
  refine ⟨?_, hsum⟩
  unfold extract_with_openai
  have htot : (runLoopAux oracle (chunked (enumerate1 pages 1) MAX_IMAGES_PER_CALL)
      0 initMerged 0).2 = pages.length := by
    rw [runLoopAux_total]
    simpa using hsum
  have hm := metadataOf_finalize_pages
    (runLoopAux oracle (chunked (enumerate1 pages 1) MAX_IMAGES_PER_CALL) 0 initMerged 0).1
    (runLoopAux oracle (chunked (enumerate1 pages 1) MAX_IMAGES_PER_CALL) 0 initMerged 0).2
  rw [← htot]
  exact hm

/- ===================== Claim C6 ===================== -/

/-- C6 fails as stated: a run whose only act record carries both the
correct key and the legacy misspelled key returns that record unchanged —
`pessoas_envovidas` is still present in the final returned record. -/
theorem C6_counterexample :
    dictGet (extract_with_openai ["p1"] c6oracle) "registros" = some (.arr [c6record]) ∧
    jGet c6record "pessoas_envovidas" = some (.arr [.obj [("nome", .str "B")]]) :=
  ⟨rfl, rfl⟩

/-- C6, corrected: before return every act record is passed through the
key migration, which moves the legacy misspelled involved-persons key to
the correct key and removes it — but only when the correct key is absent;
a record already containing the correct key is returned untouched, so the
legacy key survives in the final record whenever both keys are present
(and a record without the legacy key is untouched).  A falsy legacy value
is replaced by an empty list when moved. -/
theorem C6_legacy_key_migration :
    (∀ (l : PyDict), keysNodup l →
       ∀ w, dictGet l "pessoas_envovidas" = some w →
         dictGet l "pessoas_envolvidas" = none →
         jGet (fixReg (.obj l)) "pessoas_envolvidas" =
           some (if pyTruthy w then w else .arr []) ∧
         jGet (fixReg (.obj l)) "pessoas_envovidas" = none) ∧
    (∀ (l : PyDict) (v : JVal), dictGet l "pessoas_envolvidas" = some v →
       fixReg (.obj l) = .obj l) ∧
    (∀ (l : PyDict), dictGet l "pessoas_envovidas" = none → fixReg (.obj l) = .obj l) ∧
    (∀ (m : PyDict) (total : ℕ), ∃ rs : List JVal,
       dictGet (finalize m total) "registros" = some (.arr (rs.map fixReg))) := by
  refine ⟨?_, ?_, ?_, ?_⟩
  · intro l hnd w hw hcorrect
    simp only [fixReg, dictHas]
    rw [hw, hcorrect]
    simp only [Option.isSome_some, Option.isSome_none, Bool.not_false, Bool.and_true, if_true]
    constructor
    · show dictGet (dictRemove (dictSet l "pessoas_envolvidas" _) "pessoas_envovidas")
        "pessoas_envolvidas" = _
      rw [dictGet_dictRemove_ne _ (by decide), dictGet_dictSet_self]
    · show dictGet (dictRemove (dictSet l "pessoas_envolvidas" _) "pessoas_envovidas")
        "pessoas_envovidas" = none
      exact dictGet_dictRemove_self (keysNodup_dictSet hnd _ _) _
  · intro l v hv
    simp only [fixReg, dictHas]
    rw [hv]
    simp
  · intro l hv
    simp only [fixReg, dictHas]
    rw [hv]
    simp
  · intro m total
    refine ⟨objGetArrOr (finalizeMeta m total) "registros", ?_⟩
    simp only [finalize]
    rw [dictGet_dictSet_ne _ _ (by decide), dictGet_dictSet_ne _ _ (by decide)]
    unfold finalizeRegs
    exact dictGet_dictSet_self _ _ _

theorem C6_legacy_key_migration_witness :
    jGet (fixReg (.obj [("pessoas_envovidas", .arr [.obj [("nome", .str "C")]])]))
      "pessoas_envolvidas" = some (.arr [.obj [("nome", .str "C")]]) ∧
    jGet (fixReg (.obj [("pessoas_envovidas", .arr [.obj [("nome", .str "C")]])]))
      "pessoas_envovidas" = none ∧
    fixReg c6record = c6record ∧
    fixReg (.obj [("numero", .str "R-9")]) = .obj [("numero", .str "R-9")] := by
  have h1 := C6_legacy_key_migration.1
    [("pessoas_envovidas", .arr [.obj [("nome", .str "C")]])] (by decide)
    (.arr [.obj [("nome", .str "C")]]) rfl rfl
  refine ⟨h1.1, h1.2, ?_, ?_⟩
  · exact C6_legacy_key_migration.2.1
      [("numero", .str "R-1"),
       ("pessoas_envolvidas", .arr [.obj [("nome", .str "A")]]),
       ("pessoas_envovidas", .arr [.obj [("nome", .str "B")]])]
      (.arr [.obj [("nome", .str "A")]]) rfl
  · exact C6_legacy_key_migration.2.2.1 [("numero", .str "R-9")] rfl

/- ===================== Claim C8: shape machinery ===================== -/

theorem scSet_get_ne {src dst : PyDict} {k' k : String} (h : k' ≠ k) :
    dictGet (scSet k' src dst) k = dictGet dst k := by
  unfold scSet
  cases dictGet src k' with
  | none => rfl
  | some v =>
    simp only []
    split
    · exact dictGet_dictSet_ne _ _ h
    · rfl

theorem WFm_init : WFm initMerged := by
  refine ⟨⟨_, rfl⟩, ⟨_, rfl⟩, ?_, ⟨_, rfl, ⟨_, rfl⟩, ⟨_, rfl⟩⟩, ⟨_, rfl⟩⟩
  intro k hk
  simp [arrayKeys] at hk
  rcases hk with rfl | rfl | rfl | rfl <;> exact ⟨_, rfl⟩

theorem selosConcat_get_self (src dst : PyDict) (k : String) :
    dictGet (selosConcat src dst k) k =
      some (.arr (objGetArrOr dst k ++ objGetArrOr src k)) :=
  dictGet_dictSet_self _ _ _

theorem selosConcat_get_ne {src dst : PyDict} {k' k : String} (h : k' ≠ k) :
    dictGet (selosConcat src dst k') k = dictGet dst k :=
  dictGet_dictSet_ne _ _ h

theorem mergeSelos_get_self (m : PyDict) (d : JVal) :
    ∃ l, dictGet (mergeSelos m d) "selos_e_custas" = some (.obj l) ∧
      (∃ g, dictGet l "guias" = some (.arr g)) ∧
      (∃ t, dictGet l "selos" = some (.arr t)) := by
  have hg : dictGet (scSet "custas" (jGetObjOr d "selos_e_custas")
      (scSet "itbi" (jGetObjOr d "selos_e_custas")
        (selosConcat (jGetObjOr d "selos_e_custas")
          (selosConcat (jGetObjOr d "selos_e_custas") (selosDst0 m) "guias") "selos")))
      "guias" = some (.arr (objGetArrOr (selosDst0 m) "guias" ++
        objGetArrOr (jGetObjOr d "selos_e_custas") "guias")) := by
    rw [scSet_get_ne (by decide), scSet_get_ne (by decide),
      selosConcat_get_ne (by decide), selosConcat_get_self]
  have hs : dictGet (scSet "custas" (jGetObjOr d "selos_e_custas")
      (scSet "itbi" (jGetObjOr d "selos_e_custas")
        (selosConcat (jGetObjOr d "selos_e_custas")
          (selosConcat (jGetObjOr d "selos_e_custas") (selosDst0 m) "guias") "selos")))
      "selos" = some (.arr (objGetArrOr
        (selosConcat (jGetObjOr d "selos_e_custas") (selosDst0 m) "guias") "selos" ++
        objGetArrOr (jGetObjOr d "selos_e_custas") "selos")) := by
    rw [scSet_get_ne (by decide), scSet_get_ne (by decide), selosConcat_get_self]
  exact ⟨_, by unfold mergeSelos; exact dictGet_dictSet_self _ _ _, ⟨_, hg⟩, ⟨_, hs⟩⟩

theorem WFm_mergeBatch {m : PyDict} {d : JVal} (h : WFm m) : WFm (mergeBatch m d) := by
  obtain ⟨hdm, him, harr, ⟨sc, hsc, hg, hs⟩, hcf⟩ := h
  refine ⟨?_, ?_, ?_, ?_, ?_⟩
  · exact ⟨_, by
      unfold mergeBatch
      rw [mergeImovel_get_ne (by decide), mergeSelos_get_ne (by decide),
        mergeArrays_get_ne (by decide)]
      unfold mergeMetadata
      exact dictGet_dictSet_self _ _ _⟩
  · exact ⟨_, by
      unfold mergeBatch mergeImovel
      exact dictGet_dictSet_self _ _ _⟩
  · intro k hk
    have hks : k ≠ "selos_e_custas" ∧ k ≠ "imovel" := by
      simp [arrayKeys] at hk
      rcases hk with rfl | rfl | rfl | rfl <;> exact ⟨by decide, by decide⟩
    unfold mergeBatch
    rw [mergeImovel_get_ne hks.2, mergeSelos_get_ne hks.1]
    unfold mergeArrays
    exact arrFold_get_mem hk
  · obtain ⟨l, hl, hlg, hls⟩ := mergeSelos_get_self (mergeArrays (mergeMetadata m d) d) d
    refine ⟨l, ?_, hlg, hls⟩
    unfold mergeBatch
    rw [mergeImovel_get_ne (by decide)]
    exact hl
  · obtain ⟨cl, hcl⟩ := hcf
    refine ⟨cl, ?_⟩
    unfold mergeBatch
    rw [mergeImovel_get_ne (by decide), mergeSelos_get_ne (by decide),
      mergeArrays_get_ne (by decide), mergeMetadata_get_ne (by decide)]
    exact hcl

theorem runLoopAux_WF {oracle : ℕ → JVal} :
    ∀ (bs : List (List α)) (i : ℕ) (m : PyDict) (tot : ℕ),
      WFm m → WFm (runLoopAux oracle bs i m tot).1 := by
  intro bs
  induction bs with
  | nil => intro i m tot h; exact h
  | cons b t ih => intro i m tot h; exact ih _ _ _ (WFm_mergeBatch h)

theorem confInit_has_derived (m : PyDict) : dictHas (confInit m) "derived" = true := by
  simp only [confInit]
  split
  · assumption
  · unfold dictHas
    rw [dictGet_dictSet_self]
    rfl

theorem confDerivedSet_has_derived (conf : PyDict) (key : String) (msg : JVal) :
    dictHas (confDerivedSet conf key msg) "derived" = true := by
  unfold confDerivedSet dictHas
  rw [dictGet_dictSet_self]
  rfl

theorem deriveStep_conf_derived {ac : PyDict × PyDict} {key strKey msg : String}
    {texts : List String} (h : dictHas ac.2 "derived" = true) :
    dictHas (deriveStep key strKey msg texts ac).2 "derived" = true := by
  unfold deriveStep
  cases hinf : infer_area_from_texts texts with
  | none => simp only [hinf]; split <;> exact h
  | some t =>
    simp only [hinf]
    by_cases hc : (!pyTruthyO (dictGet ac.1 key)) = true
    · rw [if_pos hc]
      by_cases ht : t = 0
      · rw [if_neg (by simp [ht])]
        exact h
      · rw [if_pos ht]
        exact confDerivedSet_has_derived _ _ _
    · rw [if_neg hc]
      exact h

theorem finalize_get_other {m : PyDict} {total : ℕ} {k : String}
    (h1 : k ≠ "confidence") (h2 : k ≠ "imovel") (h3 : k ≠ "registros")
    (h4 : k ≠ "document_metadata") :
    dictGet (finalize m total) k = dictGet m k := by
  simp only [finalize]
  rw [dictGet_dictSet_ne _ _ (Ne.symm h1), dictGet_dictSet_ne _ _ (Ne.symm h2)]
  unfold finalizeRegs
  rw [dictGet_dictSet_ne _ _ (Ne.symm h3)]
  unfold finalizeMeta
  rw [dictGet_dictSet_ne _ _ (Ne.symm h4)]

theorem finalize_get_confidence (m : PyDict) (total : ℕ) :
    ∃ cf, dictGet (finalize m total) "confidence" = some (.obj cf) ∧
      dictHas cf "derived" = true := by
  refine ⟨_, by simp only [finalize]; exact dictGet_dictSet_self _ _ _, ?_⟩
  exact deriveStep_conf_derived (deriveStep_conf_derived (confInit_has_derived _))

theorem finalize_get_imovel (m : PyDict) (total : ℕ) :
    ∃ im, dictGet (finalize m total) "imovel" = some (.obj im) ∧
      dictHas im "areas" = true := by
  refine ⟨_, by
    simp only [finalize]
    rw [dictGet_dictSet_ne _ _ (by decide)]
    exact dictGet_dictSet_self _ _ _, ?_⟩
  unfold dictHas
  rw [dictGet_dictSet_self]
  rfl

theorem finalize_has_registros (m : PyDict) (total : ℕ) :
    dictHas (finalize m total) "registros" = true := by
  unfold dictHas
  simp only [finalize]
  rw [dictGet_dictSet_ne _ _ (by decide), dictGet_dictSet_ne _ _ (by decide)]
  unfold finalizeRegs
  rw [dictGet_dictSet_self]
  rfl

theorem finalize_has_metadata (m : PyDict) (total : ℕ) :
    dictHas (finalize m total) "document_metadata" = true := by
  unfold dictHas
  simp only [finalize]
  rw [dictGet_dictSet_ne _ _ (by decide), dictGet_dictSet_ne _ _ (by decide)]
  unfold finalizeRegs
  rw [dictGet_dictSet_ne _ _ (by decide)]
  unfold finalizeMeta
  rw [dictGet_dictSet_self]
  rfl

/- ===================== Claim C8 ===================== -/

/-- C8: for every input — the empty page list and batches contributing
nothing included — the returned record carries all eight top-level keys,
`selos_e_custas` carries its `guias` and `selos` lists, `imovel` carries
an `areas` object, and `confidence` carries a `derived` map. -/
theorem C8_shape_invariant {α : Type} :
    ∀ (image_paths : List α) (oracle : ℕ → JVal),
      let R := extract_with_openai image_paths oracle
      dictHas R "document_metadata" = true ∧
      dictHas R "imovel" = true ∧
      dictHas R "proprietarios" = true ∧
      dictHas R "registros" = true ∧
      dictHas R "valores_mencionados" = true ∧
      dictHas R "selos_e_custas" = true ∧
      dictHas R "referencias" = true ∧
      dictHas R "confidence" = true ∧
      (∃ sc, dictGet R "selos_e_custas" = some (.obj sc) ∧
        dictHas sc "guias" = true ∧ dictHas sc "selos" = true) ∧
      (∃ im, dictGet R "imovel" = some (.obj im) ∧ dictHas im "areas" = true) ∧
      (∃ cf, dictGet R "confidence" = some (.obj cf) ∧ dictHas cf "derived" = true) := by
  intro pages oracle
  simp only [extract_with_openai]
  have hWF : WFm (runLoopAux oracle (chunked (enumerate1 pages 1) MAX_IMAGES_PER_CALL)
      0 initMerged 0).1 :=
    runLoopAux_WF _ _ _ _ WFm_init
  obtain ⟨hdm, him, harr, ⟨sc, hsc, hg, hs⟩, hcf⟩ := hWF
  have hprop := harr "proprietarios" (by decide)
  have hval := harr "valores_mencionados" (by decide)
  have href := harr "referencias" (by decide)
  obtain ⟨im2, him2, hima⟩ := finalize_get_imovel
    (runLoopAux oracle (chunked (enumerate1 pages 1) MAX_IMAGES_PER_CALL) 0 initMerged 0).1
    (runLoopAux oracle (chunked (enumerate1 pages 1) MAX_IMAGES_PER_CALL) 0 initMerged 0).2
  obtain ⟨cf2, hcf2, hcfd⟩ := finalize_get_confidence
    (runLoopAux oracle (chunked (enumerate1 pages 1) MAX_IMAGES_PER_CALL) 0 initMerged 0).1
    (runLoopAux oracle (chunked (enumerate1 pages 1) MAX_IMAGES_PER_CALL) 0 initMerged 0).2
  refine ⟨finalize_has_metadata _ _, ?_, ?_, finalize_has_registros _ _, ?_, ?_, ?_, ?_,
    ⟨sc, ?_, ?_, ?_⟩, ⟨im2, him2, hima⟩, ⟨cf2, hcf2, hcfd⟩⟩
  · unfold dictHas
    rw [him2]
    rfl
  · unfold dictHas
    rw [finalize_get_other (by decide) (by decide) (by decide) (by decide), hprop.choose_spec]
    rfl
  · unfold dictHas
    rw [finalize_get_other (by decide) (by decide) (by decide) (by decide), hval.choose_spec]
    rfl
  · unfold dictHas
    rw [finalize_get_other (by decide) (by decide) (by decide) (by decide), hsc]
    rfl
  · unfold dictHas
    rw [finalize_get_other (by decide) (by decide) (by decide) (by decide), href.choose_spec]
    rfl
  · unfold dictHas
    rw [hcf2]
    rfl
  · rw [finalize_get_other (by decide) (by decide) (by decide) (by decide)]
    exact hsc
  · unfold dictHas
    rw [hg.choose_spec]
    rfl
  · unfold dictHas
    rw [hs.choose_spec]
    rfl

/- ===================== Claim C7 ===================== -/

theorem mergeMetadata_empty {m : PyDict} {l : List (String × JVal)}
    (hdm : dictGet m "document_metadata" = some (.obj l)) :
    mergeMetadata m (.obj []) = m := by
  unfold mergeMetadata
  rw [show objGetObjD m "document_metadata" = l from by unfold objGetObjD; rw [hdm]]
  exact dictSet_eq_of_get hdm

theorem arrStep_empty {m : PyDict} {k : String} {l : List JVal}
    (h : dictGet m k = some (.arr l)) :
    arrStep (.obj []) m k = m := by
  unfold arrStep
  rw [show objGetArrOr m k = l from by unfold objGetArrOr; rw [h],
    show jGetArrOr (JVal.obj []) k = [] from rfl, List.append_nil]
  exact dictSet_eq_of_get h

theorem mergeArrays_empty {m : PyDict}
    (harr : ∀ k ∈ arrayKeys, ∃ l, dictGet m k = some (.arr l)) :
    mergeArrays m (.obj []) = m := by
  obtain ⟨l1, h1⟩ := harr "proprietarios" (by decide)
  obtain ⟨l2, h2⟩ := harr "registros" (by decide)
  obtain ⟨l3, h3⟩ := harr "valores_mencionados" (by decide)
  obtain ⟨l4, h4⟩ := harr "referencias" (by decide)
  show List.foldl (arrStep (.obj [])) m arrayKeys = m
  unfold arrayKeys
  simp only [List.foldl]
  rw [arrStep_empty h1, arrStep_empty h2, arrStep_empty h3, arrStep_empty h4]

theorem mergeSelos_empty {m : PyDict} {sc : List (String × JVal)}
    {g s' : List JVal}
    (hsc : dictGet m "selos_e_custas" = some (.obj sc))
    (hg : dictGet sc "guias" = some (.arr g))
    (hs : dictGet sc "selos" = some (.arr s')) :
    mergeSelos m (.obj []) = m := by
  have hne : sc ≠ [] := by
    intro e
    rw [e] at hg
    exact Option.noConfusion hg
  have hdst0 : selosDst0 m = sc := by
    unfold selosDst0
    rw [hsc]
    cases sc with
    | nil => exact absurd rfl hne
    | cons a t => rfl
  have hcg : selosConcat (jGetObjOr (JVal.obj []) "selos_e_custas") sc "guias" = sc := by
    unfold selosConcat
    rw [show objGetArrOr sc "guias" = g from by unfold objGetArrOr; rw [hg],
      show objGetArrOr (jGetObjOr (JVal.obj []) "selos_e_custas") "guias" = [] from rfl,
      List.append_nil]
    exact dictSet_eq_of_get hg
  have hcs : selosConcat (jGetObjOr (JVal.obj []) "selos_e_custas") sc "selos" = sc := by
    unfold selosConcat
    rw [show objGetArrOr sc "selos" = s' from by unfold objGetArrOr; rw [hs],
      show objGetArrOr (jGetObjOr (JVal.obj []) "selos_e_custas") "selos" = [] from rfl,
      List.append_nil]
    exact dictSet_eq_of_get hs
  show dictSet m "selos_e_custas"
    (.obj (scSet "custas" _ (scSet "itbi" _
      (selosConcat _ (selosConcat _ (selosDst0 m) "guias") "selos")))) = m
  rw [hdst0, hcg, hcs]
  rw [show scSet "itbi" (jGetObjOr (JVal.obj []) "selos_e_custas") sc = sc from rfl,
    show scSet "custas" (jGetObjOr (JVal.obj []) "selos_e_custas") sc = sc from rfl]
  exact dictSet_eq_of_get hsc

theorem mergeImovel_empty {m : PyDict} {l : List (String × JVal)}
    (him : dictGet m "imovel" = some (.obj l)) :
    mergeImovel m (.obj []) = m := by
  unfold mergeImovel
  rw [show objGetObjOr m "imovel" = l from by unfold objGetObjOr; rw [him]]
  exact dictSet_eq_of_get him

/-- A batch whose parsed response is the empty JSON object contributes
nothing: merging it into any reachable accumulator is the identity. -/
theorem mergeBatch_empty {m : PyDict} (h : WFm m) : mergeBatch m (.obj []) = m := by
  obtain ⟨⟨ld, hdm⟩, ⟨li, him⟩, harr, ⟨sc, hsc, ⟨g, hg⟩, ⟨s', hs⟩⟩, hcf⟩ := h
  unfold mergeBatch
  rw [mergeMetadata_empty hdm, mergeArrays_empty harr, mergeSelos_empty hsc hg hs,
    mergeImovel_empty him]

/-- C7, corrected: only a falsy response body — `None` or the empty
string — is replaced by the empty JSON object `\x7b\x7d` before parsing, and
such a batch contributes no fields (merging the empty object is the
identity on the accumulator); a malformed non-empty body reaches
`json.loads` unchanged and raises a parse error instead of being treated
as an empty object. -/
theorem C7_empty_body_tolerance :
    parseBody none = Except.ok (JVal.obj []) ∧
    parseBody (some "") = Except.ok (JVal.obj []) ∧
    (∀ m : PyDict, WFm m → mergeBatch m (.obj []) = m) :=
  ⟨rfl, rfl, fun _ h => mergeBatch_empty h⟩

theorem C7_empty_body_tolerance_witness :
    mergeBatch initMerged (.obj []) = initMerged :=
  C7_empty_body_tolerance.2.2 initMerged WFm_init

/-- C7 fails as stated: the malformed non-empty body `"not json"` is not
treated as an empty JSON object — it produces a parse error. -/
theorem C7_counterexample :
    parseBody (some "not json") = Except.error "Expecting value" ∧
    (Except.error "Expecting value" : Except String JVal) ≠ Except.ok (JVal.obj []) :=
  ⟨rfl, fun h => Except.noConfusion h⟩

/- ===================== Claim C3 ===================== -/

theorem insertRank_length (ms : List ℚ) (a : ℚ) :
    ∀ l : List ℚ, (insertRank ms a l).length = l.length + 1 := by
  intro l
  induction l with
  | nil => rfl
  | cons b t ih =>
    unfold insertRank
    split
    · rfl
    · simp [ih]

theorem sortRank_length (ms : List ℚ) :
    ∀ l : List ℚ, (sortRank ms l).length = l.length := by
  intro l
  induction l with
  | nil => rfl
  | cons a t ih =>
    unfold sortRank
    rw [insertRank_length, ih]
    rfl

theorem firstOccs_length_le : ∀ l : List ℚ, (firstOccs l).length ≤ l.length := by
  intro l
  induction l with
  | nil => exact Nat.le_refl _
  | cons x t ih =>
    unfold firstOccs
    simp only [List.length_cons]
    exact Nat.succ_le_succ (Nat.le_trans (List.length_filter_le _ _) ih)

/-- The source's inference agrees everywhere with the specification-side
formulation `specInferArea` (which checks "fewer than 2 distinct values"
instead of the code's two nested guards). -/
theorem infer_eq_specInferArea (ts : List String) :
    infer_area_from_texts ts = specInferArea ts := by
  simp only [infer_area_from_texts, specInferArea]
  have hlen := sortRank_length
    (((ts.flatMap extract_measures_meters).filter fun v => 0 < v).map fun v => pyRound v 4)
    (firstOccs (((ts.flatMap extract_measures_meters).filter fun v => 0 < v).map
      fun v => pyRound v 4))
  have hfo := firstOccs_length_le
    (((ts.flatMap extract_measures_meters).filter fun v => 0 < v).map fun v => pyRound v 4)
  cases hr : sortRank
      (((ts.flatMap extract_measures_meters).filter fun v => 0 < v).map fun v => pyRound v 4)
      (firstOccs (((ts.flatMap extract_measures_meters).filter fun v => 0 < v).map
        fun v => pyRound v 4)) with
  | nil =>
    split <;> rfl
  | cons a t1 =>
    cases t1 with
    | nil =>
      split <;> rfl
    | cons b t2 =>
      rw [hr] at hlen
      have h2 : ¬ (((ts.flatMap extract_measures_meters).filter fun v => 0 < v).map
          fun v => pyRound v 4).length < 2 := by
        simp only [List.length_cons] at hlen
        omega
      rw [if_neg h2, if_pos (by simp)]

/-- C3, corrected: `infer_area_from_texts` collects every number
immediately followed by an m/m²/m2 marker (thousands-dot, decimal-comma),
keeps the values that are positive *before* rounding (so a positive value
that rounds to 0 at 4 decimal places stays in the pool), rounds each to 4
decimal places, and if at least 2 distinct values remain multiplies the
two ranked first by descending frequency with descending magnitude as
tie-break, returning the product *rounded to 2 decimal places* iff the
product lies strictly between 0 and 1,000,000, else `None`; in particular
`infer_area("10,00 m por 20,50 m") = 205.0`,
`infer_area("sem medidas") = None` and
`infer_area("frente 10,00 m fundos 10,00 m") = None`. -/
theorem C3_infer_area_contract :
    (∀ ts : List String, infer_area_from_texts ts = specInferArea ts) ∧
    infer_area_from_texts ["10,00 m por 20,50 m"] = some 205 ∧
    infer_area_from_texts ["sem medidas"] = none ∧
    infer_area_from_texts ["frente 10,00 m fundos 10,00 m"] = none :=
  ⟨infer_eq_specInferArea, by decide, by decide, by decide⟩

/-- C3 fails as stated in two ways, both exhibited here.  (1) On
`"2,0001 m por 1,5001 m"` the collected measurements are 2.0001 and
1.5001; their product 3.00035001 lies strictly between 0 and 1,000,000,
so the claim dictates returning that product, yet the code returns the
2-decimal rounding 3.0, a different number.  (2) On
`"0,00004 m e 0,00002 m e 2,0001 m por 1,5001 m"` the claim's reading
(round to 4 places, then discard non-positives) discards the two values
that round to 0 and returns the product of 2.0001 and 1.5001, yet the
code keeps the two rounded zeros, ranks 0 first by frequency, computes a
product of 0 and returns `None`. -/
theorem C3_counterexample :
    extract_measures_meters "2,0001 m por 1,5001 m" = [20001 / 10000, 15001 / 10000] ∧
    infer_area_from_texts ["2,0001 m por 1,5001 m"] = some 3 ∧
    (3 : ℚ) ≠ 20001 / 10000 * (15001 / 10000) ∧
    0 < (20001 : ℚ) / 10000 * (15001 / 10000) ∧
    (20001 : ℚ) / 10000 * (15001 / 10000) < 1000000 ∧
    infer_area_from_texts ["0,00004 m e 0,00002 m e 2,0001 m por 1,5001 m"] = none :=
  ⟨by decide, by decide, by decide, by decide, by decide, by decide⟩

/- ===================== Claim C10 ===================== -/

/-- C10: `_to_float_pt` strips every dot of the matched number as a
thousands separator before the comma becomes the decimal point, so a
number written with a dot as its decimal separator is inflated: the text
`"10.5 m"` yields the measurement 105, not 10.5. -/
theorem C10_dot_decimal_misreading :
    (∀ g : List Char, to_float_pt g =
       parseDecQ ((g.filter fun c => c ≠ '.').map fun c => if c = ',' then '.' else c)) ∧
    to_float_pt ('1' :: '0' :: '.' :: '5' :: []) = some 105 ∧
    extract_measures_meters "10.5 m" = [105] ∧
    (105 : ℚ) ≠ 21 / 2 :=
  ⟨fun _ => rfl, by decide, by decide, by decide⟩

/- ===================== Claim C5 ===================== -/

theorem runBatchesE_cons_ok {α ε : Type} (call : List (ContentPart α) → Except ε JVal)
    (b : List (ℕ × α)) (bs : List (List (ℕ × α))) (m : PyDict) (tot : ℕ) (r : JVal)
    (h : call (buildContent .normal b) = .ok r) :
    runBatchesE call (b :: bs) m tot =
      ((runBatchesE call bs (mergeBatch m r) (tot + b.length)).1,
       buildContent .normal b :: (runBatchesE call bs (mergeBatch m r) (tot + b.length)).2) := by
  simp only [runBatchesE, batchAttempt]
  rw [h]
  exact rfl

theorem runBatchesE_cons_err {α ε : Type} (call : List (ContentPart α) → Except ε JVal)
    (b : List (ℕ × α)) (bs : List (List (ℕ × α))) (m : PyDict) (tot : ℕ) (e1 e2 : ε)
    (h1 : call (buildContent .normal b) = .error e1)
    (h2 : call (buildContent .light b) = .error e2) :
    runBatchesE call (b :: bs) m tot =
      (.error e2, [buildContent .normal b, buildContent .light b]) := by
  simp only [runBatchesE, batchAttempt]
  rw [h1, h2]

/-- C5: per-batch retry policy.  (1) If the normal-tier call succeeds the
batch is settled by that single call.  (2) If it raises, the payload is
rebuilt at the light tier and the model is called exactly once more,
whatever that second call returns (so a second failure propagates
unchanged).  (3) In the batch loop, a batch whose two attempts both fail
aborts the loop with the second attempt's error after every earlier batch
was sent once at the normal tier; no later batch is attempted.  (4) The
light-tier payload re-encodes every page of the batch at width 1200 and
JPEG quality 70 (the normal tier uses 1600 and 80). -/
theorem C5_retry_policy {α ε : Type} :
    (∀ (call : List (ContentPart α) → Except ε JVal) (batch : List (ℕ × α)) (r : JVal),
       call (buildContent .normal batch) = .ok r →
       batchAttempt call batch = (.ok r, [buildContent .normal batch])) ∧
    (∀ (call : List (ContentPart α) → Except ε JVal) (batch : List (ℕ × α)) (e : ε),
       call (buildContent .normal batch) = .error e →
       batchAttempt call batch =
         (call (buildContent .light batch),
          [buildContent .normal batch, buildContent .light batch])) ∧
    (∀ (call : List (ContentPart α) → Except ε JVal) (pre : List (List (ℕ × α)))
       (bad : List (ℕ × α)) (post : List (List (ℕ × α))) (m : PyDict) (tot : ℕ)
       (e1 e2 : ε),
       (∀ b ∈ pre, ∃ r : JVal, call (buildContent .normal b) = .ok r) →
       call (buildContent .normal bad) = .error e1 →
       call (buildContent .light bad) = .error e2 →
       (runBatchesE call (pre ++ bad :: post) m tot).1 = .error e2 ∧
       (runBatchesE call (pre ++ bad :: post) m tot).2 =
         pre.map (buildContent .normal) ++
           [buildContent .normal bad, buildContent .light bad]) ∧
    (∀ batch : List (ℕ × α),
       buildContent .light batch =
         ContentPart.text PROMPT_INSTRUCTIONS ::
           batch.flatMap fun pn =>
             [ContentPart.text ("Página " ++ toString pn.1 ++ ":"),
              ContentPart.image pn.2 LIGHT_WIDTH_PX LIGHT_JPEG_QUALITY]) ∧
    tierParams .light = (1200, 70) ∧ tierParams .normal = (1600, 80) := by
  refine ⟨?_, ?_, ?_, ?_, rfl, rfl⟩
  · intro call batch r h
    unfold batchAttempt
    rw [h]
  · intro call batch e h
    unfold batchAttempt
    rw [h]
  · intro call pre bad post m tot e1 e2 hpre hn hl
    revert hpre
    induction pre generalizing m tot with
    | nil =>
      intro _
      rw [List.nil_append, runBatchesE_cons_err call bad post m tot e1 e2 hn hl]
      exact ⟨rfl, rfl⟩
    | cons b pre ih =>
      intro hpre
      obtain ⟨r, hr⟩ := hpre b (List.mem_cons_self _ _)
      have ihm := ih (mergeBatch m r) (tot + b.length)
        (fun x hx => hpre x (List.mem_cons_of_mem _ hx))
      rw [List.cons_append, runBatchesE_cons_ok call b (pre ++ bad :: post) m tot r hr]
      refine ⟨ihm.1, ?_⟩
      show buildContent Tier.normal b ::
        (runBatchesE call (pre ++ bad :: post) (mergeBatch m r) (tot + b.length)).2 = _
      rw [ihm.2]
      rfl
  · intro batch
    rfl

/-- Concrete run of the retry policy: page 7 fails at both tiers, page 2
before it succeeds at the first attempt, and the batch of page 3 after it
is never sent. -/
theorem C5_retry_policy_witness :
    batchAttempt c5call [(2, 9)] = (.ok (.obj []), [buildContent .normal [(2, 9)]]) ∧
    batchAttempt c5call [(1, 7)] =
      (.error "timeout-light",
       [buildContent .normal [(1, 7)], buildContent .light [(1, 7)]]) ∧
    (runBatchesE c5call [[(2, 9)], [(1, 7)], [(3, 8)]] initMerged 0).1 =
      Except.error "timeout-light" ∧
    (runBatchesE c5call [[(2, 9)], [(1, 7)], [(3, 8)]] initMerged 0).2 =
      [buildContent .normal [(2, 9)], buildContent .normal [(1, 7)],
       buildContent .light [(1, 7)]] := by
  have h := C5_retry_policy.2.2.1 c5call [[(2, 9)]] [(1, 7)] [[(3, 8)]] initMerged 0
    "timeout-normal" "timeout-light"
    (by
      intro b hb
      simp only [List.mem_singleton] at hb
      subst hb
      exact ⟨.obj [], rfl⟩)
    rfl rfl
  refine ⟨C5_retry_policy.1 c5call [(2, 9)] (.obj []) rfl, ?_, h.1, h.2.trans rfl⟩
  exact (C5_retry_policy.2.1 c5call [(1, 7)] "timeout-normal" rfl).trans rfl
